import Mathlib

/-!
# Key derivation add-on (`addons/main.go`)

A shallow embedding of `generateEd25519Keypair` and `generateKeyPairFromSeed`.

The Go function is a straight-line pipeline over imported packages
(`go-bip39`, `go-bip32`, `crypto/ed25519`, `crypto/x509`, `base58`,
`encoding/base64`, `encoding/json`, `syscall/js`).  The packages are not part
of the repository, so their exported functions are the fields of a record
`Libs` that every definition takes as a parameter.  Go multi-value results
`(v, err)` are pairs; a discarded error (`v, _ := f()`) is the first
projection.  Run-time panics (index out of range, nil dereference, slice
bounds) are the error side of `Except Panic`.

What the properties need of a package is stated as a contract on `Libs`.  Two
contracts name a concrete algorithm: the DER layouts of `crypto/x509` for
Ed25519 keys, and the sentence encoder and decoder of `go-bip39` (v1.1.0,
where `IsMnemonicValid` is `EntropyFromMnemonic` without error), given in the
namespace `Bip39`.
-/

namespace Addons

/-! ## Data model -/

/-- One byte. -/
abbrev Byte := Fin 256

/-- Byte slices (the Go type of byte slices). -/
abbrev Bytes := List Byte

/-- Go `error` values; `none : Option GoError` is the `nil` error. -/
abbrev GoError := String

/-- State of the system random source read by `bip39.NewEntropy`. -/
abbrev EntropySource := List Byte

/-- Run-time panics that abort the call instead of returning. -/
inductive Panic
  /-- Indexing `args[i]` with `i ≥ len(args)`. -/
  | indexOutOfRange
  /-- Call of `js.Value.Int` on a value that is not a JavaScript number. -/
  | notANumber
  /-- Field access or method call through a nil `*bip32.Key`. -/
  | nilDereference
  /-- Slice expression `s[12:]` on a slice shorter than 12. -/
  | sliceBounds
  /-- Panic raised inside an imported package (`ed25519.NewKeyFromSeed` on a bad seed length). -/
  | library
  deriving DecidableEq

/-- Computations that either produce a value or panic. -/
abbrev Go := Except Panic

/-- JavaScript values reaching the function through `args []js.Value`, by
their `js.Type`.  A `number` carries the Go `int` that `Int()` returns for it
and the text JavaScript renders it with (as `String()` embeds it). -/
inductive JsValue
  | undefined
  | null
  | boolean (b : Bool)
  | number (n : Int) (text : String)
  | string (s : String)
  | symbol
  | object
  | function
  deriving DecidableEq

/-- Dynamic values the `interface{}` result can carry back to the host: a Go
string, or an error value with its tag. -/
inductive GoValue
  | str (s : String)
  | err (tag : String)
  deriving DecidableEq

/-- The struct `Ed25519Box`. -/
structure Ed25519Box where
  Mnemonic : String
  Bip44Path : List Nat
  Pub : String
  Prv : String
  deriving DecidableEq

/-- The struct `bip32.Key` (an extended key). -/
structure Bip32Key where
  Key : Bytes
  ChainCode : Bytes
  Depth : Nat
  ChildNumber : Nat
  IsPrivate : Bool
  deriving DecidableEq

/-- Exported functions of the imported packages used by `main.go`, together
with the decoders the output formats are read back with. -/
structure Libs where
  /-- Go `bip39.NewEntropy(bitSize)`, reading the random source. -/
  NewEntropy : Nat → EntropySource → Bytes × Option GoError
  /-- Go `bip39.NewMnemonic(entropy)`. -/
  NewMnemonic : Bytes → String × Option GoError
  /-- Go `bip39.NewSeed(mnemonic, password)`. -/
  NewSeed : String → String → Bytes
  /-- Go `bip39.IsMnemonicValid(mnemonic)`. -/
  IsMnemonicValid : String → Bool
  /-- Go `bip32.NewMasterKey(seed)`; the key pointer may be nil. -/
  NewMasterKey : Bytes → Option Bip32Key × Option GoError
  /-- Go `(*bip32.Key).NewChildKey(childIdx)` on a non-nil receiver. -/
  NewChildKey : Bip32Key → Nat → Option Bip32Key × Option GoError
  /-- Go `ed25519.NewKeyFromSeed(seed)`; panics on a seed of the wrong length. -/
  NewKeyFromSeed : Bytes → Go Bytes
  /-- Go `ed25519.PrivateKey.Public()`. -/
  Public : Bytes → Bytes
  /-- Go `x509.MarshalPKIXPublicKey(pub)`. -/
  MarshalPKIXPublicKey : Bytes → Bytes × Option GoError
  /-- Go `x509.MarshalPKCS8PrivateKey(key)`. -/
  MarshalPKCS8PrivateKey : Bytes → Bytes × Option GoError
  /-- Go `base58.Encode(b)`. -/
  base58Encode : Bytes → String
  /-- Go `base58.Decode(s)`. -/
  base58Decode : String → Bytes
  /-- Go `base64.StdEncoding.EncodeToString(b)`. -/
  base64EncodeToString : Bytes → String
  /-- Go `base64.StdEncoding.DecodeString(s)`. -/
  base64DecodeString : String → Bytes × Option GoError
  /-- Go `json.Marshal(box)` followed by `string(jsonData)`. -/
  jsonMarshal : Ed25519Box → String × Option GoError

/-! ## Go primitives -/

/-- The constant `bip32.FirstHardenedChild = uint32(0x80000000)`. -/
def FirstHardenedChild : Nat := 2147483648

/-- Conversion `uint32(n)` of a Go `int`: truncation modulo `2^32`. -/
def uint32 (n : Int) : Nat := (n % 4294967296).toNat

/-- Addition of two `uint32` values (wraps modulo `2^32`). -/
def addUint32 (a b : Nat) : Nat := (a + b) % 4294967296

/-- Indexing `args[i]`; panics when out of range. -/
def index (args : List JsValue) (i : Nat) : Go JsValue :=
  match args[i]? with
  | some v => pure v
  | none => throw Panic.indexOutOfRange

/-- Method `js.Value.String()`: the string itself, or a `<T>` / `<T: V>` rendering for
other types (it never panics). -/
def jsString : JsValue → String
  | JsValue.string s => s
  | JsValue.undefined => "<undefined>"
  | JsValue.null => "<null>"
  | JsValue.boolean b => "<boolean: " ++ toString b ++ ">"
  | JsValue.number _ text => "<number: " ++ text ++ ">"
  | JsValue.symbol => "<symbol>"
  | JsValue.object => "<object>"
  | JsValue.function => "<function>"

/-- Method `js.Value.Int()`: panics unless the value is a number. -/
def jsInt : JsValue → Go Int
  | JsValue.number n _ => pure n
  | _ => throw Panic.notANumber

/-- Slice expression `b[n:]`; panics when `n > len(b)`. -/
def sliceFrom (b : Bytes) (n : Nat) : Go Bytes :=
  if n ≤ b.length then pure (b.drop n) else throw Panic.sliceBounds

/-- Field access `childKey.Key` through a `*bip32.Key`. -/
def derefKey : Option Bip32Key → Go Bytes
  | some k => pure k.Key
  | none => throw Panic.nilDereference

/-! ## The program -/

/-- Function `generateKeyPairFromSeed(seed)`: the private key from `NewKeyFromSeed` and
its public half. -/
def generateKeyPairFromSeed (L : Libs) (seed : Bytes) : Go (Bytes × Bytes) := do
  let privateKey ← L.NewKeyFromSeed seed
  let pubKey := L.Public privateKey
  pure (pubKey, privateKey)

/-- The loop `for _, pathPart := range bip44DerivePath` of lines 67-69:
`childKey, _ = childKey.NewChildKey(bip32.FirstHardenedChild + pathPart)`.
`NewChildKey` reads its receiver, so a nil `childKey` panics. -/
def deriveLoop (L : Libs) : Option Bip32Key → List Nat → Go (Option Bip32Key)
  | childKey, [] => pure childKey
  | none, _ :: _ => throw Panic.nilDereference
  | some k, pathPart :: rest =>
      deriveLoop L (L.NewChildKey k (addUint32 FirstHardenedChild pathPart)).1 rest

/-- Lines 28-81 of `generateEd25519Keypair`: everything up to and including
the construction of the `Ed25519Box` value. -/
def ed25519Box (L : Libs) (rnd : EntropySource) (args : List JsValue) : Go Ed25519Box := do
  let a0 ← index args 0
  let mnemonic := jsString a0
  let a1 ← index args 1
  let mnemonicPassword := jsString a1
  let a2 ← index args 2
  let n2 ← jsInt a2
  let a3 ← index args 3
  let n3 ← jsInt a3
  let a4 ← index args 4
  let n4 ← jsInt a4
  let a5 ← index args 5
  let n5 ← jsInt a5
  let bip44DerivePath := [uint32 n2, uint32 n3, uint32 n4, uint32 n5]
  let mnemonic :=
    if mnemonic = "" then
      let entropy := (L.NewEntropy 256 rnd).1
      (L.NewMnemonic entropy).1
    else mnemonic
  let seed := L.NewSeed mnemonic mnemonicPassword
  let masterPrivateKey := (L.NewMasterKey seed).1
  let bip44DerivePath :=
    if bip44DerivePath.length = 0 then [44, 7337, 0, 0] else bip44DerivePath
  let childKey ← deriveLoop L masterPrivateKey bip44DerivePath
  let key ← derefKey childKey
  let (publicKeyObject, privateKeyObject) ← generateKeyPairFromSeed L key
  let pubKeyBytes := (L.MarshalPKIXPublicKey publicKeyObject).1
  let privKeyBytes := (L.MarshalPKCS8PrivateKey privateKeyObject).1
  let pubTail ← sliceFrom pubKeyBytes 12
  pure { Mnemonic := mnemonic, Bip44Path := bip44DerivePath,
         Pub := L.base58Encode pubTail, Prv := L.base64EncodeToString privKeyBytes }

/-- Function `generateEd25519Keypair(this, args)`: the box is marshalled to JSON, the
marshalling error is discarded, and the string is returned. -/
def generateEd25519Keypair (L : Libs) (rnd : EntropySource) (args : List JsValue) : Go GoValue := do
  let box ← ed25519Box L rnd args
  let jsonData := (L.jsonMarshal box).1
  pure (GoValue.str jsonData)


/-! ## Vocabulary of the output formats -/

/-- The predicate `unicode.IsSpace`: the white space characters `strings.Fields`
splits on. -/
def isSpace (c : Char) : Bool :=
  (9 ≤ c.toNat && c.toNat ≤ 13) || c.toNat == 32 || c.toNat == 0x85 || c.toNat == 0xA0 ||
  c.toNat == 0x1680 || (0x2000 ≤ c.toNat && c.toNat ≤ 0x200A) || c.toNat == 0x2028 ||
  c.toNat == 0x2029 || c.toNat == 0x202F || c.toNat == 0x205F || c.toNat == 0x3000

/-- Fields of a character list separated by white space (`cur` is the word
being read, reversed). -/
def fieldsAux : List Char → List Char → List (List Char)
  | [], cur => if cur = [] then [] else [cur.reverse]
  | c :: cs, cur =>
      if isSpace c then
        (if cur = [] then fieldsAux cs [] else cur.reverse :: fieldsAux cs [])
      else fieldsAux cs (c :: cur)

/-- The words of a sentence, as `strings.Fields` splits it. -/
def fields (s : String) : List (List Char) := fieldsAux s.data []

/-- Number of words of a mnemonic sentence. -/
def wordCount (s : String) : Nat := (fields s).length

/-- Word counts of well-formed BIP39 sentences. -/
def validWordCounts : List Nat := [12, 15, 18, 21, 24]

/-- Number of words BIP39 uses for `bits` bits of entropy: entropy plus one
checksum bit per 32 bits, cut into groups of 11 bits. -/
def bip39Words (bits : Nat) : Nat := (bits + bits / 32) / 11

/-- DER length octets. -/
def derLength (n : Nat) : Bytes :=
  if n < 128 then [Fin.ofNat n]
  else if n < 256 then [0x81, Fin.ofNat n]
  else [0x82, Fin.ofNat (n / 256), Fin.ofNat (n % 256)]

/-- DER tag-length-value. -/
def derTLV (tag : Byte) (content : Bytes) : Bytes :=
  tag :: (derLength content.length ++ content)

/-- AlgorithmIdentifier of Ed25519: a SEQUENCE holding the OID 1.3.101.112. -/
def algorithmIdentifier : Bytes := derTLV 0x30 (derTLV 0x06 [0x2b, 0x65, 0x70])

/-- SubjectPublicKeyInfo (PKIX) encoding of an Ed25519 public key:
a SEQUENCE of the AlgorithmIdentifier and the key as a BIT STRING. -/
def pkixEd25519 (pub : Bytes) : Bytes :=
  derTLV 0x30 (algorithmIdentifier ++ derTLV 0x03 (0x00 :: pub))

/-- PKCS#8 encoding of an Ed25519 private key with seed `seed`:
a SEQUENCE of INTEGER 0, the AlgorithmIdentifier and an OCTET STRING that
holds the seed as an OCTET STRING. -/
def pkcs8Ed25519 (seed : Bytes) : Bytes :=
  derTLV 0x30 (derTLV 0x02 [0x00] ++ algorithmIdentifier ++ derTLV 0x04 (derTLV 0x04 seed))

/-- The 12 octets in front of the key in the PKIX encoding of a 32-byte key. -/
def pkixHeader : Bytes :=
  [0x30, 0x2a, 0x30, 0x05, 0x06, 0x03, 0x2b, 0x65, 0x70, 0x03, 0x21, 0x00]

/-- The 16 octets in front of the seed in the PKCS#8 encoding of a 32-byte seed. -/
def pkcs8Header : Bytes :=
  [0x30, 0x2e, 0x02, 0x01, 0x00, 0x30, 0x05, 0x06, 0x03, 0x2b, 0x65, 0x70,
   0x04, 0x22, 0x04, 0x20]

/-- Words joined by single spaces (`strings.Join(words, " ")`). -/
def joinWords : List (List Char) → List Char
  | [] => []
  | [w] => w
  | w :: ws => w ++ ' ' :: joinWords ws

/-! ## The algorithm of `go-bip39`

The sentence encoder and decoder of the package, over a word list and the
hash `sha256` (both kept as parameters: the 2048 words of the English list
and the hash function itself play no part in the properties proved). -/

namespace Bip39

/-- Conversion `big.Int.SetBytes`: the number a big-endian byte slice denotes. -/
def setBytes (b : Bytes) : Nat := b.foldl (fun acc x => acc * 256 + x.val) 0

/-- Worker of `bigBytes`: peels off the low byte while the number is not zero. -/
def bigBytesAux : Nat → Nat → Bytes → Bytes
  | 0, _, acc => acc
  | fuel + 1, n, acc =>
      if n = 0 then acc else bigBytesAux fuel (n / 256) (Fin.ofNat (n % 256) :: acc)

/-- Conversion `big.Int.Bytes`: the big-endian bytes of a number, without
leading zeros. -/
def bigBytes (n : Nat) : Bytes := bigBytesAux n n []

/-- Function `padByteSlice`: left-pads with zero bytes up to `length`. -/
def padByteSlice (slice : Bytes) (length : Nat) : Bytes :=
  if length ≤ slice.length then slice
  else List.replicate (length - slice.length) 0 ++ slice

/-- Function `validateEntropyBitSize`. -/
def validateEntropyBitSize (bitSize : Nat) : Option GoError :=
  if bitSize % 32 ≠ 0 ∨ bitSize < 128 ∨ bitSize > 256 then
    some "Entropy length must be [128, 256] and a multiple of 32"
  else none

/-- Function `addChecksum`: shifts the entropy left once per checksum bit and
sets the new low bit to the next bit of the first hash byte, from the top
(the mask `1 << (7 - i)` of a byte is zero once `i` exceeds 7).  The hash always
has 32 bytes, so the default of `headD` is never taken. -/
def addChecksum (sha256 : Bytes → Bytes) (data : Bytes) : Bytes :=
  let firstChecksumByte := ((sha256 data).headD 0).val
  let checksumBitLength := data.length / 4
  bigBytes ((List.range checksumBitLength).foldl
    (fun dataBigInt i =>
      if i ≤ 7 ∧ firstChecksumByte &&& (1 <<< (7 - i)) > 0 then dataBigInt * 2 ||| 1
      else dataBigInt * 2)
    (setBytes data))

/-- The word loop of `NewMnemonic`: `count` words, the last one from the low 11
bits. -/
def mnemonicWords (wordList : List String) : Nat → Nat → List String
  | 0, _ => []
  | count + 1, entropyInt =>
      mnemonicWords wordList count (entropyInt / 2048) ++
        [wordList.getD (setBytes (padByteSlice (bigBytes (entropyInt % 2048)) 2)) ""]

/-- Function `bip39.NewMnemonic`. -/
def NewMnemonic (wordList : List String) (sha256 : Bytes → Bytes) (entropy : Bytes) :
    String × Option GoError :=
  let entropyBitLength := entropy.length * 8
  let checksumBitLength := entropyBitLength / 32
  let sentenceLength := (entropyBitLength + checksumBitLength) / 11
  match validateEntropyBitSize entropyBitLength with
  | some err => ("", some err)
  | none =>
    let entropyInt := setBytes (addChecksum sha256 entropy)
    let words := mnemonicWords wordList sentenceLength entropyInt
    (String.mk (joinWords (words.map String.data)), none)

/-- Function `splitMnemonicWords`. -/
def splitMnemonicWords (mnemonic : String) : Option (List String) :=
  let words := (fields mnemonic).map String.mk
  let numOfWords := words.length
  if numOfWords % 3 ≠ 0 ∨ numOfWords < 12 ∨ numOfWords > 24 then none else some words

/-- The decoding loop of `EntropyFromMnemonic`: it stops with an error at the
first word that is not in the word map (the map sends a word to its index in
the list). -/
def decodeWords (wordList : List String) : Nat → List String → Except GoError Nat
  | b, [] => Except.ok b
  | b, v :: rest =>
      if wordList.indexOf v < wordList.length then
        decodeWords wordList (b * 2048 ||| wordList.indexOf v) rest
      else Except.error ("word `" ++ v ++ "` not found in reverse map")

/-- Table `wordLengthChecksumMasksMapping`. -/
def checksumMask (numOfWords : Nat) : Nat :=
  if numOfWords = 12 then 15 else if numOfWords = 15 then 31 else if numOfWords = 18 then 63
  else if numOfWords = 21 then 127 else 255

/-- Table `wordLengthChecksumShiftMapping`. -/
def checksumShift (numOfWords : Nat) : Nat :=
  if numOfWords = 12 then 16 else if numOfWords = 15 then 8 else if numOfWords = 18 then 4
  else 2

/-- Function `bip39.EntropyFromMnemonic`. -/
def EntropyFromMnemonic (wordList : List String) (sha256 : Bytes → Bytes) (mnemonic : String) :
    Bytes × Option GoError :=
  match splitMnemonicWords mnemonic with
  | none => ([], some "Invalid mnenomic")
  | some mnemonicSlice =>
    match decodeWords wordList 0 mnemonicSlice with
    | Except.error err => ([], some err)
    | Except.ok b =>
      let checksum := b &&& checksumMask mnemonicSlice.length
      let b := b / (checksumMask mnemonicSlice.length + 1)
      let entropy := padByteSlice (bigBytes b) (mnemonicSlice.length / 3 * 4)
      let entropyChecksum := ((sha256 entropy).headD 0).val
      let entropyChecksum :=
        if mnemonicSlice.length ≠ 24 then entropyChecksum / checksumShift mnemonicSlice.length
        else entropyChecksum
      if checksum ≠ entropyChecksum then ([], some "Checksum incorrect") else (entropy, none)

/-- Function `bip39.IsMnemonicValid`. -/
def IsMnemonicValid (wordList : List String) (sha256 : Bytes → Bytes) (mnemonic : String) : Bool :=
  (EntropyFromMnemonic wordList sha256 mnemonic).2 == none

/-- What the properties need of the word list: 2048 distinct, non-empty words
without white space.  Lookups in the word map are then lookups of the index. -/
def WordListOK (wordList : List String) : Prop :=
  wordList.length = 2048 ∧ wordList.Nodup ∧
  ∀ w ∈ wordList, w.data ≠ [] ∧ ∀ c ∈ w.data, isSpace c = false

end Bip39

/-! ## Contracts of the imported packages -/

/-- Contract of `crypto/ed25519`: `NewKeyFromSeed` accepts exactly 32-byte
seeds, the private key is 64 bytes starting with the seed, and the public key
is 32 bytes. -/
def Ed25519Contract (L : Libs) : Prop :=
  ∀ seed priv, L.NewKeyFromSeed seed = Except.ok priv →
    seed.length = 32 ∧ priv.length = 64 ∧ priv.take 32 = seed ∧ (L.Public priv).length = 32

/-- Contract of `crypto/x509` on Ed25519 keys: the public key is marshalled as
its SubjectPublicKeyInfo, the private key as the PKCS#8 structure of its seed. -/
def X509Contract (L : Libs) : Prop :=
  (∀ pub : Bytes, pub.length = 32 → L.MarshalPKIXPublicKey pub = (pkixEd25519 pub, none)) ∧
  (∀ priv : Bytes, priv.length = 64 →
    L.MarshalPKCS8PrivateKey priv = (pkcs8Ed25519 (priv.take 32), none))

/-- Contract of `base58`: decoding inverts encoding. -/
def Base58RoundTrip (L : Libs) : Prop :=
  ∀ b : Bytes, L.base58Decode (L.base58Encode b) = b

/-- Contract of `encoding/base64`: decoding inverts encoding. -/
def Base64RoundTrip (L : Libs) : Prop :=
  ∀ b : Bytes, L.base64DecodeString (L.base64EncodeToString b) = (b, none)

/-- Contract of `go-bip39`: a successful `NewEntropy(bitSize)` delivers
`bitSize` bits, and `NewMnemonic` and `IsMnemonicValid` are the encoder and the
validity check of the package over a well-formed word list. -/
def Bip39Contract (L : Libs) (wordList : List String) (sha256 : Bytes → Bytes) : Prop :=
  (∀ bitSize rnd e, L.NewEntropy bitSize rnd = (e, none) → 8 * e.length = bitSize) ∧
  Bip39.WordListOK wordList ∧
  L.NewMnemonic = Bip39.NewMnemonic wordList sha256 ∧
  L.IsMnemonicValid = Bip39.IsMnemonicValid wordList sha256

/-! ## An executable instance of the packages

`demoLibs` fills every field of `Libs` with a small computable function of the
same shape as the real one (same failure cases, same lengths, the real DER
layouts), so that the program can be run on concrete inputs.  The hash-based
primitives are replaced by simple arithmetic. -/

/-- Digit alphabet used by the demo text codecs. -/
def demoAlphabet : List Char := "123456789ABCDEFG".data

/-- Two digits per byte. -/
def demoEncode : Bytes → List Char
  | [] => []
  | b :: bs => demoAlphabet.getD (b.val / 16) '1' :: demoAlphabet.getD (b.val % 16) '1' :: demoEncode bs

/-- Inverse of `demoEncode`; stops at the first incomplete pair. -/
def demoDecode : List Char → Bytes
  | hi :: lo :: cs =>
      Fin.ofNat (demoAlphabet.indexOf hi * 16 + demoAlphabet.indexOf lo) :: demoDecode cs
  | _ => []

/-- Letters of the demo words. -/
def demoLetters : List Char := "abcdefghijklmnop".data

/-- The demo word with index `i`: three letters spelling `i` in base 16. -/
def demoWordAt (i : Nat) : String :=
  String.mk [demoLetters.getD (i / 256) 'a', demoLetters.getD (i / 16 % 16) 'a',
    demoLetters.getD (i % 16) 'a']

/-- A word list of 2048 distinct words. -/
def demoWordList : List String := (List.range 2048).map demoWordAt

/-- Demo hash: 32 copies of the byte sum. -/
def demoSha256 (b : Bytes) : Bytes :=
  List.replicate 32 (Fin.ofNat (b.foldl (fun acc x => acc + x.val) 0))

/-- Demo `NewEntropy`: checks the bit size as `go-bip39` does, then takes the
bytes from the random source, failing when it cannot deliver them. -/
def demoNewEntropy (bitSize : Nat) (rnd : EntropySource) : Bytes × Option GoError :=
  if bitSize % 32 = 0 ∧ 128 ≤ bitSize ∧ bitSize ≤ 256 then
    if bitSize / 8 ≤ rnd.length then (rnd.take (bitSize / 8), none)
    else ([], some "unexpected EOF")
  else ([], some "Entropy length must be [128, 256] and a multiple of 32")

/-- Demo `NewSeed`: 64 bytes computed from both strings; total on every input. -/
def demoNewSeed (mnemonic password : String) : Bytes :=
  let h := (mnemonic.data ++ 'm' :: password.data).foldl (fun acc c => (acc * 131 + c.toNat) % 65521) 7
  (List.range 64).map (fun i => Fin.ofNat (h * (i + 1) + i))

/-- Demo `NewMasterKey`: splits the seed into key and chain code; an all-zero
key is rejected with a nil key. -/
def demoNewMasterKey (seed : Bytes) : Option Bip32Key × Option GoError :=
  if (seed.take 32).all (fun b => decide (b = 0)) then (none, some "Invalid private key")
  else (some { Key := seed.take 32, ChainCode := seed.drop 32, Depth := 0,
               ChildNumber := 0, IsPrivate := true }, none)

/-- Demo `NewChildKey`: mixes key, chain code and index; an all-zero child key
is rejected with a nil key. -/
def demoNewChildKey (k : Bip32Key) (childIdx : Nat) : Option Bip32Key × Option GoError :=
  let key := (List.zipWith (fun a c => a + c) k.Key k.ChainCode).map (fun b => b + Fin.ofNat (childIdx % 251))
  if key.all (fun b => decide (b = 0)) then (none, some "Invalid private key")
  else (some { Key := key, ChainCode := k.ChainCode.map (fun c => c + 1), Depth := k.Depth + 1,
               ChildNumber := childIdx, IsPrivate := k.IsPrivate }, none)

/-- Demo `NewKeyFromSeed`: panics unless the seed has 32 bytes; the private key
is the seed followed by the public key. -/
def demoNewKeyFromSeed (seed : Bytes) : Go Bytes :=
  if seed.length = 32 then pure (seed ++ seed.reverse) else throw Panic.library

/-- Demo `json.Marshal` of the box; never fails. -/
def demoJson (box : Ed25519Box) : String × Option GoError :=
  ("\x7b\"mnemonic\":\"" ++ box.Mnemonic ++ "\",\"bip44Path\":[" ++
    ",".intercalate (box.Bip44Path.map toString) ++ "],\"pub\":\"" ++ box.Pub ++
    "\",\"prv\":\"" ++ box.Prv ++ "\"\x7d", none)

/-- The executable instance. -/
def demoLibs : Libs where
  NewEntropy := demoNewEntropy
  NewMnemonic := Bip39.NewMnemonic demoWordList demoSha256
  NewSeed := demoNewSeed
  IsMnemonicValid := Bip39.IsMnemonicValid demoWordList demoSha256
  NewMasterKey := demoNewMasterKey
  NewChildKey := demoNewChildKey
  NewKeyFromSeed := demoNewKeyFromSeed
  Public := fun priv => priv.drop 32
  MarshalPKIXPublicKey := fun pub => (pkixEd25519 pub, none)
  MarshalPKCS8PrivateKey := fun priv => (pkcs8Ed25519 (priv.take 32), none)
  base58Encode := fun b => String.mk (demoEncode b)
  base58Decode := fun s => demoDecode s.data
  base64EncodeToString := fun b => String.mk (demoEncode b)
  base64DecodeString := fun s => (demoDecode s.data, none)
  jsonMarshal := demoJson

/-- The same packages with a child derivation that always fails: `NewChildKey`
returns a nil key and an error. -/
def failingChildLibs : Libs :=
  { demoLibs with NewChildKey := fun _ _ => (none, some "Invalid private key") }

/-- A well-formed call: two strings and four numbers. -/
def callArgs (mnemonic password : String) (n2 n3 n4 n5 : Int) : List JsValue :=
  [JsValue.string mnemonic, JsValue.string password,
   JsValue.number n2 (toString n2), JsValue.number n3 (toString n3),
   JsValue.number n4 (toString n4), JsValue.number n5 (toString n5)]


/-! ## Stages of the pipeline

Names for the segments of `generateEd25519Keypair`, used to state what the
function computes.  `ed25519Box_eq_stages` shows that the function is their
composition. -/

/-- Lines 28-34: the two strings and the four path components read from `args`. -/
def readArgs (args : List JsValue) : Go (String × String × List Nat) := do
  let a0 ← index args 0
  let a1 ← index args 1
  let a2 ← index args 2
  let n2 ← jsInt a2
  let a3 ← index args 3
  let n3 ← jsInt a3
  let a4 ← index args 4
  let n4 ← jsInt a4
  let a5 ← index args 5
  let n5 ← jsInt a5
  pure (jsString a0, jsString a1, [uint32 n2, uint32 n3, uint32 n4, uint32 n5])

/-- Lines 36-44: the mnemonic the rest of the call works with. -/
def usedMnemonic (L : Libs) (rnd : EntropySource) (mnemonic : String) : String :=
  if mnemonic = "" then (L.NewMnemonic (L.NewEntropy 256 rnd).1).1 else mnemonic

/-- Lines 73-81: key generation from the final node and the encoding of the box. -/
def exportBox (L : Libs) (mnemonic : String) (path : List Nat) (childKey : Option Bip32Key) :
    Go Ed25519Box := do
  let key ← derefKey childKey
  let (publicKeyObject, privateKeyObject) ← generateKeyPairFromSeed L key
  let pubKeyBytes := (L.MarshalPKIXPublicKey publicKeyObject).1
  let privKeyBytes := (L.MarshalPKCS8PrivateKey privateKeyObject).1
  let pubTail ← sliceFrom pubKeyBytes 12
  pure { Mnemonic := mnemonic, Bip44Path := path,
         Pub := L.base58Encode pubTail, Prv := L.base64EncodeToString privKeyBytes }

/-- Lines 48-81 for a given mnemonic, password and path. -/
def deriveAndExport (L : Libs) (mnemonic password : String) (path : List Nat) : Go Ed25519Box := do
  let childKey ← deriveLoop L (L.NewMasterKey (L.NewSeed mnemonic password)).1 path
  exportBox L mnemonic path childKey

/-- The walk as the specification words it: the master key of the seed, then
the child at `FirstHardenedChild + p` (in `uint32`) for each of the four
components in order; `none` as soon as a step yields a nil key. -/
def hardenedWalk (L : Libs) (seed : Bytes) (p1 p2 p3 p4 : Nat) : Option Bip32Key :=
  (L.NewMasterKey seed).1 >>= fun k0 =>
  (L.NewChildKey k0 (addUint32 FirstHardenedChild p1)).1 >>= fun k1 =>
  (L.NewChildKey k1 (addUint32 FirstHardenedChild p2)).1 >>= fun k2 =>
  (L.NewChildKey k2 (addUint32 FirstHardenedChild p3)).1 >>= fun k3 =>
  (L.NewChildKey k3 (addUint32 FirstHardenedChild p4)).1

/-- The box the specification describes for final node `k` and private key `priv`. -/
def boxOf (L : Libs) (mnemonic : String) (path : List Nat) (priv : Bytes) : Ed25519Box :=
  { Mnemonic := mnemonic, Bip44Path := path,
    Pub := L.base58Encode ((L.MarshalPKIXPublicKey (L.Public priv)).1.drop 12),
    Prv := L.base64EncodeToString (L.MarshalPKCS8PrivateKey priv).1 }

/-- The final node of the demo call: mnemonic "hello world", empty password,
path 1, 2, 3, 4 on `demoLibs`. -/
def demoNode : Bip32Key :=
  (hardenedWalk demoLibs (demoLibs.NewSeed "hello world" "") 1 2 3 4).getD
    { Key := [], ChainCode := [], Depth := 0, ChildNumber := 0, IsPrivate := false }

/-- The private key of the demo call. -/
def demoPrivateKey : Bytes := demoNode.Key ++ demoNode.Key.reverse

/-- The packages with every reported error replaced by `nil`; the values
returned next to the errors are kept. -/
def dropErrors (L : Libs) : Libs :=
  { L with
    NewEntropy := fun bitSize rnd => ((L.NewEntropy bitSize rnd).1, none)
    NewMnemonic := fun e => ((L.NewMnemonic e).1, none)
    NewMasterKey := fun seed => ((L.NewMasterKey seed).1, none)
    NewChildKey := fun k i => ((L.NewChildKey k i).1, none)
    MarshalPKIXPublicKey := fun pub => ((L.MarshalPKIXPublicKey pub).1, none)
    MarshalPKCS8PrivateKey := fun priv => ((L.MarshalPKCS8PrivateKey priv).1, none)
    jsonMarshal := fun box => ((L.jsonMarshal box).1, none) }

/-- Thirty-two bytes for the random source of the demo calls. -/
def demoEntropy : EntropySource := (List.range 32).map (fun i => Fin.ofNat (7 * i + 3))

/-- The final node of the demo call with an empty mnemonic and an exhausted
random source: the walk from the seed of the empty string, path 1, 2, 3, 4. -/
def demoNodeEmpty : Bip32Key :=
  (hardenedWalk demoLibs (demoLibs.NewSeed "" "") 1 2 3 4).getD
    { Key := [], ChainCode := [], Depth := 0, ChildNumber := 0, IsPrivate := false }

theorem ed25519Box_eq_stages (L : Libs) (rnd : EntropySource) (args : List JsValue) :
    ed25519Box L rnd args =
      (readArgs args >>= fun r => deriveAndExport L (usedMnemonic L rnd r.1) r.2.1 r.2.2) := by
  simp only [ed25519Box, readArgs, deriveAndExport, exportBox, usedMnemonic, bind_assoc, pure_bind]
  rfl

theorem readArgs_callArgs (m pw : String) (n2 n3 n4 n5 : Int) :
    readArgs (callArgs m pw n2 n3 n4 n5) =
      Except.ok (m, pw, [uint32 n2, uint32 n3, uint32 n4, uint32 n5]) := rfl

theorem ed25519Box_callArgs (L : Libs) (rnd : EntropySource) (m pw : String) (n2 n3 n4 n5 : Int) :
    ed25519Box L rnd (callArgs m pw n2 n3 n4 n5) =
      deriveAndExport L (usedMnemonic L rnd m) pw [uint32 n2, uint32 n3, uint32 n4, uint32 n5] := by
  rw [ed25519Box_eq_stages, readArgs_callArgs]
  rfl

theorem usedMnemonic_of_ne (L : Libs) (rnd : EntropySource) (m : String) (h : m ≠ "") :
    usedMnemonic L rnd m = m := by
  simp [usedMnemonic, h]

theorem uint32_lt (n : Int) : uint32 n < 4294967296 := by
  unfold uint32
  omega

/-- Below `2^31` the addition of the hardened offset does not wrap. -/
theorem addUint32_hardened_iff (p : Nat) (hp : p < 4294967296) :
    FirstHardenedChild ≤ addUint32 FirstHardenedChild p ↔ p < 2147483648 := by
  unfold addUint32 FirstHardenedChild
  omega


theorem exportBox_some (L : Libs) (m : String) (path : List Nat) (k : Bip32Key) :
    exportBox L m path (some k) =
      match L.NewKeyFromSeed k.Key with
      | Except.ok priv =>
          if 12 ≤ (L.MarshalPKIXPublicKey (L.Public priv)).1.length then
            Except.ok (boxOf L m path priv)
          else Except.error Panic.sliceBounds
      | Except.error p => Except.error p := by
  unfold exportBox generateKeyPairFromSeed derefKey sliceFrom boxOf
  simp only [bind, Except.bind, pure, Except.pure, throw, throwThe, MonadExceptOf.throw]
  cases h : L.NewKeyFromSeed k.Key with
  | error p => rfl
  | ok priv =>
    by_cases hl : 12 ≤ (L.MarshalPKIXPublicKey (L.Public priv)).1.length
    · simp only [hl, if_true]
    · simp only [hl, if_false]

theorem exportBox_none (L : Libs) (m : String) (path : List Nat) :
    exportBox L m path none = Except.error Panic.nilDereference := rfl

theorem deriveLoop_none (L : Libs) (path : List Nat) :
    deriveLoop L none path = Except.ok none ∨
      deriveLoop L none path = Except.error Panic.nilDereference := by
  cases path with
  | nil => exact Or.inl rfl
  | cons p ps => exact Or.inr rfl

/-- The loop over a four-element path is the walk of the specification; a nil
key anywhere along it ends in a nil dereference. -/
theorem deriveAndExport_four (L : Libs) (m pw : String) (p1 p2 p3 p4 : Nat) :
    deriveAndExport L m pw [p1, p2, p3, p4] =
      match hardenedWalk L (L.NewSeed m pw) p1 p2 p3 p4 with
      | some k => exportBox L m [p1, p2, p3, p4] (some k)
      | none => Except.error Panic.nilDereference := by
  unfold deriveAndExport hardenedWalk
  cases h0 : (L.NewMasterKey (L.NewSeed m pw)).1 with
  | none => rfl
  | some k0 =>
    cases h1 : (L.NewChildKey k0 (addUint32 FirstHardenedChild p1)).1 with
    | none => simp [deriveLoop, h1, bind, Except.bind, throw, throwThe, MonadExceptOf.throw]
    | some k1 =>
      cases h2 : (L.NewChildKey k1 (addUint32 FirstHardenedChild p2)).1 with
      | none => simp [deriveLoop, h1, h2, bind, Except.bind, throw, throwThe, MonadExceptOf.throw]
      | some k2 =>
        cases h3 : (L.NewChildKey k2 (addUint32 FirstHardenedChild p3)).1 with
        | none =>
          simp [deriveLoop, h1, h2, h3, bind, Except.bind, throw, throwThe, MonadExceptOf.throw]
        | some k3 =>
          cases h4 : (L.NewChildKey k3 (addUint32 FirstHardenedChild p4)).1 with
          | none =>
            simp [deriveLoop, h1, h2, h3, h4, bind, Except.bind, pure, Except.pure, exportBox_none]
          | some k4 =>
            simp [deriveLoop, h1, h2, h3, h4, bind, Except.bind, pure, Except.pure]

/-- Success of the whole call, for any mnemonic actually used. -/
theorem deriveAndExport_ok (L : Libs) (m pw : String) (p1 p2 p3 p4 : Nat) (k : Bip32Key)
    (priv : Bytes)
    (hw : hardenedWalk L (L.NewSeed m pw) p1 p2 p3 p4 = some k)
    (hk : L.NewKeyFromSeed k.Key = Except.ok priv)
    (hl : 12 ≤ (L.MarshalPKIXPublicKey (L.Public priv)).1.length) :
    deriveAndExport L m pw [p1, p2, p3, p4] = Except.ok (boxOf L m [p1, p2, p3, p4] priv) := by
  rw [deriveAndExport_four, hw]
  simp only [exportBox_some, hk, hl, if_true]

/-- Inversion: a returned box comes from a completed walk and key generation. -/
theorem deriveAndExport_inv (L : Libs) (m pw : String) (p1 p2 p3 p4 : Nat) (box : Ed25519Box)
    (h : deriveAndExport L m pw [p1, p2, p3, p4] = Except.ok box) :
    ∃ k priv, hardenedWalk L (L.NewSeed m pw) p1 p2 p3 p4 = some k ∧
      L.NewKeyFromSeed k.Key = Except.ok priv ∧
      12 ≤ (L.MarshalPKIXPublicKey (L.Public priv)).1.length ∧
      box = boxOf L m [p1, p2, p3, p4] priv := by
  rw [deriveAndExport_four] at h
  cases hw : hardenedWalk L (L.NewSeed m pw) p1 p2 p3 p4 with
  | none => rw [hw] at h; cases h
  | some k =>
    rw [hw] at h
    simp only [exportBox_some] at h
    cases hk : L.NewKeyFromSeed k.Key with
    | error p => rw [hk] at h; cases h
    | ok priv =>
      rw [hk] at h
      by_cases hl : 12 ≤ (L.MarshalPKIXPublicKey (L.Public priv)).1.length
      · simp only [hl, if_true] at h
        exact ⟨k, priv, rfl, hk, hl, (Except.ok.inj h).symm⟩
      · simp only [hl, if_false] at h
        cases h

theorem generate_eq (L : Libs) (rnd : EntropySource) (args : List JsValue) :
    generateEd25519Keypair L rnd args =
      match ed25519Box L rnd args with
      | Except.ok box => Except.ok (GoValue.str (L.jsonMarshal box).1)
      | Except.error p => Except.error p := by
  unfold generateEd25519Keypair
  cases ed25519Box L rnd args <;> rfl


theorem jsInt_inv (v : JsValue) (n : Int) (h : jsInt v = Except.ok n) :
    ∃ t, v = JsValue.number n t := by
  cases v with
  | number k t => exact ⟨t, congrArg (fun x => JsValue.number x t) (Except.ok.inj h)⟩
  | undefined => cases h
  | null => cases h
  | boolean b => cases h
  | string s => cases h
  | symbol => cases h
  | object => cases h
  | function => cases h

/-- Inversion of the argument stage: it returns only when indices 0 to 5 are
present and indices 2 to 5 are numbers. -/
theorem readArgs_inv (args : List JsValue) (r : String × String × List Nat)
    (h : readArgs args = Except.ok r) :
    ∃ a0 a1 n2 n3 n4 n5 t2 t3 t4 t5, args[0]? = some a0 ∧ args[1]? = some a1 ∧
      args[2]? = some (JsValue.number n2 t2) ∧ args[3]? = some (JsValue.number n3 t3) ∧
      args[4]? = some (JsValue.number n4 t4) ∧ args[5]? = some (JsValue.number n5 t5) ∧
      r = (jsString a0, jsString a1, [uint32 n2, uint32 n3, uint32 n4, uint32 n5]) := by
  unfold readArgs index at h
  cases h0 : args[0]? with
  | none => rw [h0] at h; cases h
  | some a0 =>
  cases h1 : args[1]? with
  | none => rw [h0, h1] at h; cases h
  | some a1 =>
  cases h2 : args[2]? with
  | none => rw [h0, h1, h2] at h; cases h
  | some a2 =>
  cases j2 : jsInt a2 with
  | error p => rw [h0, h1, h2] at h; simp [bind, Except.bind, pure, Except.pure, j2] at h
  | ok n2 =>
  cases h3 : args[3]? with
  | none => rw [h0, h1, h2, h3] at h; simp [bind, Except.bind, pure, Except.pure, j2] at h
  | some a3 =>
  cases j3 : jsInt a3 with
  | error p => rw [h0, h1, h2, h3] at h; simp [bind, Except.bind, pure, Except.pure, j2, j3] at h
  | ok n3 =>
  cases h4 : args[4]? with
  | none =>
    rw [h0, h1, h2, h3, h4] at h; simp [bind, Except.bind, pure, Except.pure, j2, j3] at h
  | some a4 =>
  cases j4 : jsInt a4 with
  | error p =>
    rw [h0, h1, h2, h3, h4] at h; simp [bind, Except.bind, pure, Except.pure, j2, j3, j4] at h
  | ok n4 =>
  cases h5 : args[5]? with
  | none =>
    rw [h0, h1, h2, h3, h4, h5] at h
    simp [bind, Except.bind, pure, Except.pure, j2, j3, j4] at h
  | some a5 =>
  cases j5 : jsInt a5 with
  | error p =>
    rw [h0, h1, h2, h3, h4, h5] at h
    simp [bind, Except.bind, pure, Except.pure, j2, j3, j4, j5] at h
  | ok n5 =>
    rw [h0, h1, h2, h3, h4, h5] at h
    simp [bind, Except.bind, pure, Except.pure, j2, j3, j4, j5] at h
    obtain ⟨t2, e2⟩ := jsInt_inv a2 n2 j2
    obtain ⟨t3, e3⟩ := jsInt_inv a3 n3 j3
    obtain ⟨t4, e4⟩ := jsInt_inv a4 n4 j4
    obtain ⟨t5, e5⟩ := jsInt_inv a5 n5 j5
    exact ⟨a0, a1, n2, n3, n4, n5, t2, t3, t4, t5, rfl, rfl, by rw [e2], by rw [e3], by rw [e4],
      by rw [e5], h.symm⟩

theorem bind_ok_inv {α β : Type} (x : Go α) (f : α → Go β) (b : β)
    (h : (x >>= f) = Except.ok b) : ∃ a, x = Except.ok a ∧ f a = Except.ok b := by
  cases x with
  | error p => cases h
  | ok a => exact ⟨a, rfl, h⟩


theorem deriveLoop_congr (L M : Libs)
    (h : ∀ k i, (M.NewChildKey k i).1 = (L.NewChildKey k i).1) (path : List Nat) :
    ∀ k : Option Bip32Key, deriveLoop M k path = deriveLoop L k path := by
  induction path with
  | nil => intro k; cases k <;> rfl
  | cons p ps ih =>
    intro k
    cases k with
    | none => rfl
    | some k0 =>
      show deriveLoop M (M.NewChildKey k0 (addUint32 FirstHardenedChild p)).1 ps =
        deriveLoop L (L.NewChildKey k0 (addUint32 FirstHardenedChild p)).1 ps
      rw [h, ih]

/-- The generator of lines 40-42 does not enter `deriveAndExport`. -/
theorem deriveAndExport_generator_free (L : Libs)
    (f : Nat → EntropySource → Bytes × Option GoError) (g : Bytes → String × Option GoError)
    (m pw : String) (path : List Nat) :
    deriveAndExport { L with NewEntropy := f, NewMnemonic := g } m pw path =
      deriveAndExport L m pw path := by
  unfold deriveAndExport
  rw [deriveLoop_congr L { L with NewEntropy := f, NewMnemonic := g } (fun _ _ => rfl)]
  rfl

theorem hardenedWalk_inv (L : Libs) (seed : Bytes) (p1 p2 p3 p4 : Nat) (k : Bip32Key)
    (h : hardenedWalk L seed p1 p2 p3 p4 = some k) :
    ∃ k0 k1 k2 k3, (L.NewMasterKey seed).1 = some k0 ∧
      (L.NewChildKey k0 (addUint32 FirstHardenedChild p1)).1 = some k1 ∧
      (L.NewChildKey k1 (addUint32 FirstHardenedChild p2)).1 = some k2 ∧
      (L.NewChildKey k2 (addUint32 FirstHardenedChild p3)).1 = some k3 ∧
      (L.NewChildKey k3 (addUint32 FirstHardenedChild p4)).1 = some k := by
  unfold hardenedWalk at h
  cases h0 : (L.NewMasterKey seed).1 with
  | none => rw [h0] at h; cases h
  | some k0 =>
    rw [h0] at h
    cases h1 : (L.NewChildKey k0 (addUint32 FirstHardenedChild p1)).1 with
    | none => simp [h1] at h
    | some k1 =>
      cases h2 : (L.NewChildKey k1 (addUint32 FirstHardenedChild p2)).1 with
      | none => simp [h1, h2] at h
      | some k2 =>
        cases h3 : (L.NewChildKey k2 (addUint32 FirstHardenedChild p3)).1 with
        | none => simp [h1, h2, h3] at h
        | some k3 =>
          simp [h1, h2, h3] at h
          exact ⟨k0, k1, k2, k3, rfl, h1, h2, h3, h⟩

theorem deriveLoop_of_walk (L : Libs) (seed : Bytes) (p1 p2 p3 p4 : Nat) (k : Bip32Key)
    (h : hardenedWalk L seed p1 p2 p3 p4 = some k) :
    deriveLoop L (L.NewMasterKey seed).1 [p1, p2, p3, p4] = Except.ok (some k) := by
  obtain ⟨k0, k1, k2, k3, h0, h1, h2, h3, h4⟩ := hardenedWalk_inv L seed p1 p2 p3 p4 k h
  simp [deriveLoop, h0, h1, h2, h3, h4, pure, Except.pure]

/-- Inversion of the whole call: a returned box comes from six readable
arguments, a completed walk, a generated key pair and a PKIX result of at
least 12 bytes. -/
theorem ed25519Box_inv (L : Libs) (rnd : EntropySource) (args : List JsValue) (box : Ed25519Box)
    (h : ed25519Box L rnd args = Except.ok box) :
    ∃ a0 a1 n2 n3 n4 n5 t2 t3 t4 t5 k priv,
      args[0]? = some a0 ∧ args[1]? = some a1 ∧
      args[2]? = some (JsValue.number n2 t2) ∧ args[3]? = some (JsValue.number n3 t3) ∧
      args[4]? = some (JsValue.number n4 t4) ∧ args[5]? = some (JsValue.number n5 t5) ∧
      hardenedWalk L (L.NewSeed (usedMnemonic L rnd (jsString a0)) (jsString a1))
        (uint32 n2) (uint32 n3) (uint32 n4) (uint32 n5) = some k ∧
      L.NewKeyFromSeed k.Key = Except.ok priv ∧
      12 ≤ (L.MarshalPKIXPublicKey (L.Public priv)).1.length ∧
      box = boxOf L (usedMnemonic L rnd (jsString a0))
        [uint32 n2, uint32 n3, uint32 n4, uint32 n5] priv := by
  rw [ed25519Box_eq_stages] at h
  obtain ⟨r, hr, hd⟩ := bind_ok_inv _ _ _ h
  obtain ⟨a0, a1, n2, n3, n4, n5, t2, t3, t4, t5, h0, h1, h2, h3, h4, h5, rfl⟩ :=
    readArgs_inv args r hr
  obtain ⟨k, priv, hw, hk, hl, hb⟩ := deriveAndExport_inv L _ _ _ _ _ _ box hd
  exact ⟨a0, a1, n2, n3, n4, n5, t2, t3, t4, t5, k, priv, h0, h1, h2, h3, h4, h5, hw, hk, hl, hb⟩

/-- The value returned is the JSON string of the box, or the panic of the box. -/
theorem generate_eq_bind (L : Libs) (rnd : EntropySource) (args : List JsValue) :
    generateEd25519Keypair L rnd args =
      (ed25519Box L rnd args >>= fun box => pure (GoValue.str (L.jsonMarshal box).1)) := rfl

/-- Inversion of the return step: a returned value is the JSON string of the
box built by the call. -/
theorem generate_ok_inv (L : Libs) (rnd : EntropySource) (args : List JsValue) (v : GoValue)
    (h : generateEd25519Keypair L rnd args = Except.ok v) :
    ∃ box, ed25519Box L rnd args = Except.ok box ∧ v = GoValue.str (L.jsonMarshal box).1 := by
  rw [generate_eq] at h
  cases hb : ed25519Box L rnd args with
  | error p => rw [hb] at h; cases h
  | ok box =>
    rw [hb] at h
    exact ⟨box, rfl, (Except.ok.inj h).symm⟩

/-- C1, broken by the code at one input: for the path component `2^31` (a value the
conversion `uint32` leaves unchanged) the index handed to `NewChildKey`,
`FirstHardenedChild + pathPart` in `uint32` arithmetic, wraps to `0`, which is
below the hardened offset; the loop derives the non-hardened child `0`. -/
theorem hardened_offset_wraps (L : Libs) (k : Bip32Key) (rest : List Nat) :
    uint32 2147483648 = 2147483648 ∧
    addUint32 FirstHardenedChild (uint32 2147483648) = 0 ∧
    addUint32 FirstHardenedChild (uint32 2147483648) < FirstHardenedChild ∧
    deriveLoop L (some k) (uint32 2147483648 :: rest) =
      deriveLoop L (L.NewChildKey k 0).1 rest := by
  have h1 : uint32 2147483648 = 2147483648 := by decide
  have h2 : addUint32 FirstHardenedChild 2147483648 = 0 := by decide
  refine ⟨h1, ?_, ?_, ?_⟩
  · rw [h1, h2]
  · rw [h1, h2]; decide
  · rw [h1]
    show deriveLoop L (L.NewChildKey k (addUint32 FirstHardenedChild 2147483648)).1 rest = _
    rw [h2]

/-- C2, broken by the code: whenever the call returns a box, its `bip44Path`
is the four numbers found at `args[2]` to `args[5]`, converted to `uint32`,
and the key pair comes from the walk along these four numbers; the default
path is never substituted (four zeros stay four zeros). -/
theorem bip44Path_echoes_args (L : Libs) (rnd : EntropySource) (args : List JsValue)
    (box : Ed25519Box) (h : ed25519Box L rnd args = Except.ok box) :
    ∃ a1 n2 n3 n4 n5 t2 t3 t4 t5 k priv, args[1]? = some a1 ∧
      args[2]? = some (JsValue.number n2 t2) ∧ args[3]? = some (JsValue.number n3 t3) ∧
      args[4]? = some (JsValue.number n4 t4) ∧ args[5]? = some (JsValue.number n5 t5) ∧
      box.Bip44Path = [uint32 n2, uint32 n3, uint32 n4, uint32 n5] ∧
      deriveLoop L (L.NewMasterKey (L.NewSeed box.Mnemonic (jsString a1))).1
        [uint32 n2, uint32 n3, uint32 n4, uint32 n5] = Except.ok (some k) ∧
      generateKeyPairFromSeed L k.Key = Except.ok (L.Public priv, priv) ∧
      box = boxOf L box.Mnemonic [uint32 n2, uint32 n3, uint32 n4, uint32 n5] priv := by
  obtain ⟨a0, a1, n2, n3, n4, n5, t2, t3, t4, t5, k, priv, -, h1, h2, h3, h4, h5, hw, hk, -, hb⟩ :=
    ed25519Box_inv L rnd args box h
  refine ⟨a1, n2, n3, n4, n5, t2, t3, t4, t5, k, priv, h1, h2, h3, h4, h5, by rw [hb]; rfl,
    ?_, ?_, ?_⟩
  · rw [hb]
    exact deriveLoop_of_walk L _ _ _ _ _ k hw
  · simp [generateKeyPairFromSeed, hk, bind, Except.bind, pure, Except.pure]
  · rw [hb]; rfl

/-- Witness for C2 at the failing input: a call with four zero path arguments
returns a box whose path is four zeros, not the default. -/
theorem bip44Path_echoes_args_witness :
    ∃ box, ed25519Box demoLibs [] (callArgs "hello world" "" 0 0 0 0) = Except.ok box ∧
      box.Bip44Path = [0, 0, 0, 0] := by
  cases h : ed25519Box demoLibs [] (callArgs "hello world" "" 0 0 0 0) with
  | ok box =>
    obtain ⟨a1, n2, n3, n4, n5, t2, t3, t4, t5, k, priv, -, h2, h3, h4, h5, hp, -⟩ :=
      bip44Path_echoes_args demoLibs [] _ box h
    have e2 : n2 = 0 := (JsValue.number.inj (Option.some.inj h2)).1.symm
    have e3 : n3 = 0 := (JsValue.number.inj (Option.some.inj h3)).1.symm
    have e4 : n4 = 0 := (JsValue.number.inj (Option.some.inj h4)).1.symm
    have e5 : n5 = 0 := (JsValue.number.inj (Option.some.inj h5)).1.symm
    subst e2 e3 e4 e5
    exact ⟨box, rfl, hp⟩
  | error p =>
    have hb : (ed25519Box demoLibs [] (callArgs "hello world" "" 0 0 0 0)).toBool = true := by
      decide
    rw [h] at hb
    cases hb

/-- C4: for a non-empty supplied mnemonic `m` the box is the one derived from
the seed `NewSeed(m, password)` and exported with `m` itself as its mnemonic
field; a returned box carries `m` unchanged; the result is the same whatever
`NewEntropy`, `NewMnemonic` and the random source are, that is, the mnemonic
generator plays no part in the call; and the value the call returns is the
JSON string of that box, so every returned record has `m` as its mnemonic. -/
theorem mnemonic_passthrough (L : Libs) (rnd : EntropySource) (m pw : String)
    (n2 n3 n4 n5 : Int) (hm : m ≠ "") :
    ed25519Box L rnd (callArgs m pw n2 n3 n4 n5) =
      (deriveLoop L (L.NewMasterKey (L.NewSeed m pw)).1
          [uint32 n2, uint32 n3, uint32 n4, uint32 n5] >>=
        exportBox L m [uint32 n2, uint32 n3, uint32 n4, uint32 n5]) ∧
    (∀ box, ed25519Box L rnd (callArgs m pw n2 n3 n4 n5) = Except.ok box → box.Mnemonic = m) ∧
    (∀ (f : Nat → EntropySource → Bytes × Option GoError) (g : Bytes → String × Option GoError)
        (rnd2 : EntropySource),
      generateEd25519Keypair { L with NewEntropy := f, NewMnemonic := g } rnd2
          (callArgs m pw n2 n3 n4 n5) =
        generateEd25519Keypair L rnd (callArgs m pw n2 n3 n4 n5)) ∧
    generateEd25519Keypair L rnd (callArgs m pw n2 n3 n4 n5) =
      (deriveLoop L (L.NewMasterKey (L.NewSeed m pw)).1
          [uint32 n2, uint32 n3, uint32 n4, uint32 n5] >>=
        exportBox L m [uint32 n2, uint32 n3, uint32 n4, uint32 n5] >>=
        fun box => pure (GoValue.str (L.jsonMarshal box).1)) ∧
    (∀ v, generateEd25519Keypair L rnd (callArgs m pw n2 n3 n4 n5) = Except.ok v →
      ∃ box, ed25519Box L rnd (callArgs m pw n2 n3 n4 n5) = Except.ok box ∧
        box.Mnemonic = m ∧ v = GoValue.str (L.jsonMarshal box).1) := by
  have hbox : ∀ (M : Libs) (r : EntropySource), ed25519Box M r (callArgs m pw n2 n3 n4 n5) =
      deriveAndExport M m pw [uint32 n2, uint32 n3, uint32 n4, uint32 n5] := by
    intro M r
    rw [ed25519Box_callArgs, usedMnemonic_of_ne M r m hm]
  have hmn : ∀ box, ed25519Box L rnd (callArgs m pw n2 n3 n4 n5) = Except.ok box →
      box.Mnemonic = m := by
    intro box h
    rw [hbox] at h
    obtain ⟨k, priv, -, -, -, hb⟩ := deriveAndExport_inv L _ _ _ _ _ _ box h
    rw [hb]; rfl
  refine ⟨?_, hmn, ?_, ?_, ?_⟩
  · rw [hbox]; rfl
  · intro f g rnd2
    rw [generate_eq, generate_eq, hbox, hbox, deriveAndExport_generator_free]
  · rw [generate_eq_bind, hbox]; rfl
  · intro v hv
    obtain ⟨box, hb, hvb⟩ := generate_ok_inv L rnd _ v hv
    exact ⟨box, hb, hmn box hb, hvb⟩

/-- Witness for C4 on the executable instance: the call with the mnemonic
"hello world" returns the JSON string of the box derived from it, and gives
the same result when the generator is replaced by one that always fails and
the random source holds other bytes. -/
theorem mnemonic_passthrough_witness :
    ed25519Box demoLibs [] (callArgs "hello world" "pw" 44 7337 0 0) =
      (deriveLoop demoLibs (demoLibs.NewMasterKey (demoLibs.NewSeed "hello world" "pw")).1
          [uint32 44, uint32 7337, uint32 0, uint32 0] >>=
        exportBox demoLibs "hello world" [uint32 44, uint32 7337, uint32 0, uint32 0]) ∧
    generateEd25519Keypair
        { demoLibs with NewEntropy := fun _ _ => ([], some "no entropy"),
                        NewMnemonic := fun _ => ("", some "no mnemonic") } [1, 2, 3]
        (callArgs "hello world" "pw" 44 7337 0 0) =
      generateEd25519Keypair demoLibs [] (callArgs "hello world" "pw" 44 7337 0 0) ∧
    generateEd25519Keypair demoLibs [] (callArgs "hello world" "pw" 44 7337 0 0) =
      (deriveLoop demoLibs (demoLibs.NewMasterKey (demoLibs.NewSeed "hello world" "pw")).1
          [uint32 44, uint32 7337, uint32 0, uint32 0] >>=
        exportBox demoLibs "hello world" [uint32 44, uint32 7337, uint32 0, uint32 0] >>=
        fun box => pure (GoValue.str (demoLibs.jsonMarshal box).1)) :=
  have h := mnemonic_passthrough demoLibs [] "hello world" "pw" 44 7337 0 0 (by decide)
  ⟨h.1, h.2.2.1 _ _ _, h.2.2.2.1⟩

/-- C5: with a non-empty mnemonic (the string read from `args[0]`) the result
of the call, returned string or panic, is the same for every state of the
random source: two calls with the same arguments give identical results. -/
theorem deterministic_given_mnemonic (L : Libs) (rnd1 rnd2 : EntropySource) (a0 : JsValue)
    (rest : List JsValue) (hm : jsString a0 ≠ "") :
    generateEd25519Keypair L rnd1 (a0 :: rest) = generateEd25519Keypair L rnd2 (a0 :: rest) := by
  have hbox : ed25519Box L rnd1 (a0 :: rest) = ed25519Box L rnd2 (a0 :: rest) := by
    rw [ed25519Box_eq_stages, ed25519Box_eq_stages]
    cases hr : readArgs (a0 :: rest) with
    | error p => rfl
    | ok r =>
      obtain ⟨b0, b1, n2, n3, n4, n5, t2, t3, t4, t5, h0, -, -, -, -, -, rfl⟩ :=
        readArgs_inv _ r hr
      have hb : b0 = a0 := by
        simp only [List.getElem?_cons_zero, Option.some.injEq] at h0
        exact h0.symm
      subst hb
      show deriveAndExport L (usedMnemonic L rnd1 (jsString b0)) _ _ =
        deriveAndExport L (usedMnemonic L rnd2 (jsString b0)) _ _
      rw [usedMnemonic_of_ne L rnd1 _ hm, usedMnemonic_of_ne L rnd2 _ hm]
  rw [generate_eq, generate_eq, hbox]

/-- Witness for C5: two different states of the random source, same result. -/
theorem deterministic_given_mnemonic_witness :
    generateEd25519Keypair demoLibs [] (callArgs "hello world" "" 1 2 3 4) =
      generateEd25519Keypair demoLibs [7, 7, 7] (callArgs "hello world" "" 1 2 3 4) :=
  deterministic_given_mnemonic demoLibs [] [7, 7, 7] (JsValue.string "hello world") _ (by decide)


theorem pkixEd25519_eq (pub : Bytes) (h : pub.length = 32) :
    pkixEd25519 pub = pkixHeader ++ pub := by
  simp [pkixEd25519, derTLV, derLength, algorithmIdentifier, pkixHeader, h]
  decide

theorem pkcs8Ed25519_eq (seed : Bytes) (h : seed.length = 32) :
    pkcs8Ed25519 seed = pkcs8Header ++ seed := by
  simp [pkcs8Ed25519, derTLV, derLength, algorithmIdentifier, pkcs8Header, h]
  decide

/-! ## The executable instance meets the contracts -/

theorem demo_ed25519Contract : Ed25519Contract demoLibs := by
  intro seed priv h
  simp only [demoLibs, demoNewKeyFromSeed] at h
  by_cases hl : seed.length = 32
  · simp only [hl, if_true, pure, Except.pure] at h
    have hp : priv = seed ++ seed.reverse := (Except.ok.inj h).symm
    subst hp
    refine ⟨hl, by simp [hl], ?_, ?_⟩
    · rw [← hl]; simp
    · show (List.drop 32 (seed ++ seed.reverse)).length = 32
      simp [hl]
  · simp only [hl, if_false] at h
    cases h

theorem demo_x509Contract : X509Contract demoLibs :=
  ⟨fun _ _ => rfl, fun _ _ => rfl⟩

theorem demoAlphabet_index :
    ∀ d : Fin 16, demoAlphabet.indexOf (demoAlphabet.getD d.val '1') = d.val := by
  decide

theorem demoDecode_demoEncode (b : Bytes) : demoDecode (demoEncode b) = b := by
  induction b with
  | nil => rfl
  | cons x xs ih =>
    have h1 := demoAlphabet_index ⟨x.val / 16, by omega⟩
    have h2 := demoAlphabet_index ⟨x.val % 16, by omega⟩
    simp only at h1 h2
    simp only [demoEncode, demoDecode, h1, h2, ih]
    congr 1
    apply Fin.ext
    simp only [Fin.ofNat]
    omega

theorem demo_base58RoundTrip : Base58RoundTrip demoLibs := fun b => demoDecode_demoEncode b

theorem demo_base64RoundTrip : Base64RoundTrip demoLibs := fun b => by
  show (demoDecode (demoEncode b), (none : Option GoError)) = (b, none)
  rw [demoDecode_demoEncode]


theorem fieldsAux_word (w rest : List Char) (hw : ∀ c ∈ w, isSpace c = false) :
    ∀ cur : List Char, fieldsAux (w ++ rest) cur = fieldsAux rest (w.reverse ++ cur) := by
  induction w with
  | nil => intro cur; rfl
  | cons c cs ih =>
    intro cur
    have hc : isSpace c = false := hw c (List.mem_cons_self c cs)
    have hcs : ∀ d ∈ cs, isSpace d = false := fun d hd => hw d (List.mem_cons_of_mem c hd)
    show fieldsAux (c :: (cs ++ rest)) cur = _
    rw [fieldsAux]
    simp only [hc, Bool.false_eq_true, if_false]
    rw [ih hcs]
    simp

theorem fieldsAux_joinWords (ws : List (List Char))
    (h : ∀ w ∈ ws, w ≠ [] ∧ ∀ c ∈ w, isSpace c = false) :
    fieldsAux (joinWords ws) [] = ws := by
  induction ws with
  | nil => rfl
  | cons w rest ih =>
    obtain ⟨hne, hws⟩ := h w (List.mem_cons_self w rest)
    have hrest : ∀ v ∈ rest, v ≠ [] ∧ ∀ c ∈ v, isSpace c = false :=
      fun v hv => h v (List.mem_cons_of_mem w hv)
    cases rest with
    | nil =>
      show fieldsAux w [] = [w]
      have h1 := fieldsAux_word w [] hws []
      simp only [List.append_nil] at h1
      rw [h1, fieldsAux]
      simp [hne]
    | cons v vs =>
      show fieldsAux (w ++ ' ' :: joinWords (v :: vs)) [] = w :: v :: vs
      rw [fieldsAux_word w _ hws, fieldsAux]
      have hsp : isSpace ' ' = true := by decide
      simp only [hsp, if_true, List.append_nil, List.reverse_eq_nil_iff, hne, if_false,
        List.reverse_reverse]
      rw [ih hrest]

namespace Bip39

theorem setBytes_cons_aux (b : Bytes) : ∀ a : Nat,
    b.foldl (fun acc x => acc * 256 + x.val) a = a * 256 ^ b.length + setBytes b := by
  induction b with
  | nil => intro a; simp [setBytes]
  | cons x xs ih =>
    intro a
    simp only [List.foldl_cons, List.length_cons, setBytes]
    rw [ih, ih (0 * 256 + x.val)]
    ring

theorem setBytes_append (a b : Bytes) :
    setBytes (a ++ b) = setBytes a * 256 ^ b.length + setBytes b := by
  unfold setBytes
  rw [List.foldl_append, setBytes_cons_aux]
  rfl

theorem setBytes_cons (x : Byte) (xs : Bytes) :
    setBytes (x :: xs) = x.val * 256 ^ xs.length + setBytes xs := by
  have := setBytes_append [x] xs
  simpa [setBytes] using this

theorem setBytes_lt (b : Bytes) : setBytes b < 256 ^ b.length := by
  induction b with
  | nil => simp [setBytes]
  | cons x xs ih =>
    rw [setBytes_cons, List.length_cons, pow_succ]
    have hx : x.val < 256 := x.isLt
    nlinarith

theorem setBytes_replicate_zero (k : Nat) (b : Bytes) :
    setBytes (List.replicate k 0 ++ b) = setBytes b := by
  induction k with
  | zero => rfl
  | succ k ih =>
    rw [List.replicate_succ, List.cons_append, setBytes_cons, ih]
    simp

theorem setBytes_bigBytesAux : ∀ (fuel n : Nat) (acc : Bytes), n ≤ fuel →
    setBytes (bigBytesAux fuel n acc) = n * 256 ^ acc.length + setBytes acc := by
  intro fuel
  induction fuel with
  | zero =>
    intro n acc h
    have : n = 0 := by omega
    subst this
    simp [bigBytesAux]
  | succ f ih =>
    intro n acc h
    unfold bigBytesAux
    by_cases hn : n = 0
    · simp [hn]
    · simp only [hn, if_false]
      rw [ih _ _ (by omega), setBytes_cons, List.length_cons, pow_succ]
      have hm : (Fin.ofNat (n % 256) : Fin 256).val = n % 256 := by
        simp [Fin.ofNat]
      rw [hm]
      have hd := Nat.div_add_mod n 256
      generalize n / 256 = q at hd ⊢
      generalize n % 256 = r at hd ⊢
      rw [← hd]
      ring

theorem setBytes_bigBytes (n : Nat) : setBytes (bigBytes n) = n := by
  unfold bigBytes
  rw [setBytes_bigBytesAux n n [] (le_refl n)]
  simp [setBytes]

theorem bigBytesAux_length : ∀ (fuel n k : Nat) (acc : Bytes), n ≤ fuel → n < 256 ^ k →
    (bigBytesAux fuel n acc).length ≤ k + acc.length := by
  intro fuel
  induction fuel with
  | zero => intro n k acc _ _; simp [bigBytesAux]
  | succ f ih =>
    intro n k acc h hk
    unfold bigBytesAux
    by_cases hn : n = 0
    · simp [hn]
    · simp only [hn, if_false]
      cases k with
      | zero => simp at hk; omega
      | succ k =>
        have h1 : n / 256 < 256 ^ k := by
          rw [pow_succ] at hk
          exact Nat.div_lt_of_lt_mul (by rw [Nat.mul_comm]; exact hk)
        have := ih (n / 256) k (Fin.ofNat (n % 256) :: acc) (by omega) h1
        simp only [List.length_cons] at this
        omega

theorem setBytes_inj : ∀ (a b : Bytes), a.length = b.length → setBytes a = setBytes b → a = b := by
  intro a
  induction a with
  | nil => intro b hl _; cases b with
    | nil => rfl
    | cons y ys => simp at hl
  | cons x xs ih =>
    intro b hl hs
    cases b with
    | nil => simp at hl
    | cons y ys =>
      simp only [List.length_cons, Nat.add_right_cancel_iff] at hl
      rw [setBytes_cons, setBytes_cons, hl] at hs
      have h1 := setBytes_lt xs
      have h2 := setBytes_lt ys
      rw [hl] at h1
      have hp : 0 < 256 ^ ys.length := by positivity
      have hxy : x.val = y.val := by
        have e1 : (x.val * 256 ^ ys.length + setBytes xs) / 256 ^ ys.length = x.val := by
          rw [Nat.add_comm, Nat.add_mul_div_right _ _ hp, Nat.div_eq_of_lt h1]; simp
        have e2 : (y.val * 256 ^ ys.length + setBytes ys) / 256 ^ ys.length = y.val := by
          rw [Nat.add_comm, Nat.add_mul_div_right _ _ hp, Nat.div_eq_of_lt h2]; simp
        rw [← e1, ← e2, hs]
      have hrest : setBytes xs = setBytes ys := by
        rw [hxy] at hs
        omega
      rw [Fin.ext hxy, ih ys hl hrest]

theorem padByteSlice_bigBytes (b : Bytes) : padByteSlice (bigBytes (setBytes b)) b.length = b := by
  have hlen : (bigBytes (setBytes b)).length ≤ b.length := by
    have := bigBytesAux_length (setBytes b) (setBytes b) b.length [] (le_refl _) (setBytes_lt b)
    simpa [bigBytes] using this
  apply setBytes_inj
  · unfold padByteSlice
    by_cases h : b.length ≤ (bigBytes (setBytes b)).length
    · simp only [h, if_true]; omega
    · simp only [h, if_false, List.length_append, List.length_replicate]; omega
  · unfold padByteSlice
    by_cases h : b.length ≤ (bigBytes (setBytes b)).length
    · simp only [h, if_true]; exact setBytes_bigBytes _
    · simp only [h, if_false]
      rw [setBytes_replicate_zero, setBytes_bigBytes]

/-! ### The encoder and the decoder -/

theorem setBytes_addChecksum (sha256 : Bytes → Bytes) (e : Bytes) (h : e.length = 32) :
    setBytes (addChecksum sha256 e) = setBytes e * 256 + ((sha256 e).headD 0).val := by
  unfold addChecksum
  rw [setBytes_bigBytes, h]
  have hc : ((sha256 e).headD 0).val < 256 := ((sha256 e).headD 0).isLt
  generalize ((sha256 e).headD 0).val = c at hc ⊢
  generalize setBytes e = d
  have hr : List.range (32 / 4) = [0, 1, 2, 3, 4, 5, 6, 7] := by decide
  rw [hr]
  have step : ∀ i y : Nat, i ≤ 7 →
      (if i ≤ 7 ∧ c &&& (1 <<< (7 - i)) > 0 then y * 2 ||| 1 else y * 2) =
        y * 2 + c / 2 ^ (7 - i) % 2 := by
    intro i y hi
    have hor : y * 2 ||| 1 = y * 2 + 1 := by
      have := Nat.mul_add_lt_is_or (i := 1) (b := 1) (by decide) y
      simp only [pow_one] at this
      rw [Nat.mul_comm y 2, ← this]
    have hbit : (c &&& (1 <<< (7 - i)) > 0) ↔ (c / 2 ^ (7 - i) % 2 = 1) := by
      rw [Nat.one_shiftLeft, Nat.and_two_pow, Nat.testBit_to_div_mod]
      by_cases h : c / 2 ^ (7 - i) % 2 = 1
      · simp [h]
      · simp [h]
    by_cases h : c / 2 ^ (7 - i) % 2 = 1
    · rw [if_pos ⟨hi, hbit.mpr h⟩, hor, h]
    · rw [if_neg (fun hh => h (hbit.mp hh.2))]
      omega
  simp only [List.foldl_cons, List.foldl_nil]
  rw [step 0 _ (by decide), step 1 _ (by decide), step 2 _ (by decide), step 3 _ (by decide),
    step 4 _ (by decide), step 5 _ (by decide), step 6 _ (by decide), step 7 _ (by decide)]
  norm_num
  omega

theorem wordIndex_eq (m : Nat) : setBytes (padByteSlice (bigBytes m) 2) = m := by
  unfold padByteSlice
  split
  · exact setBytes_bigBytes m
  · rw [setBytes_replicate_zero, setBytes_bigBytes]

theorem decodeWords_append (wl : List String) (xs ys : List String) : ∀ b : Nat,
    decodeWords wl b (xs ++ ys) = (decodeWords wl b xs >>= fun c => decodeWords wl c ys) := by
  induction xs with
  | nil => intro b; rfl
  | cons x xs ih =>
    intro b
    simp only [List.cons_append, decodeWords]
    split
    · exact ih _
    · rfl

theorem mnemonicWords_length (wl : List String) : ∀ count n : Nat,
    (mnemonicWords wl count n).length = count := by
  intro count
  induction count with
  | zero => intro n; rfl
  | succ k ih => intro n; simp [mnemonicWords, ih]

theorem mnemonicWords_mem (wl : List String) (hl : wl.length = 2048) : ∀ (count n : Nat),
    ∀ w ∈ mnemonicWords wl count n, w ∈ wl := by
  intro count
  induction count with
  | zero => intro n w hw; simp [mnemonicWords] at hw
  | succ k ih =>
    intro n w hw
    simp only [mnemonicWords, List.mem_append, List.mem_singleton] at hw
    rcases hw with hw | hw
    · exact ih _ w hw
    · rw [hw, wordIndex_eq]
      have hlt : n % 2048 < wl.length := by omega
      rw [List.getD_eq_getElem _ _ hlt]
      exact List.getElem_mem _

theorem decodeWords_mnemonicWords (wl : List String) (hl : wl.length = 2048) (hn : wl.Nodup) :
    ∀ (count n b : Nat),
      decodeWords wl b (mnemonicWords wl count n) =
        Except.ok (b * 2048 ^ count + n % 2048 ^ count) := by
  intro count
  induction count with
  | zero => intro n b; simp [mnemonicWords, decodeWords, Nat.mod_one]
  | succ k ih =>
    intro n b
    simp only [mnemonicWords]
    rw [decodeWords_append, ih, wordIndex_eq]
    have hlt : n % 2048 < wl.length := by omega
    have hidx : wl.indexOf (wl.getD (n % 2048) "") = n % 2048 := by
      rw [List.getD_eq_getElem _ _ hlt]
      exact List.indexOf_getElem hn _ hlt
    have hor : ∀ a : Nat, a * 2048 ||| n % 2048 = a * 2048 + n % 2048 := by
      intro a
      have := Nat.mul_add_lt_is_or (i := 11) (b := n % 2048) (by norm_num; omega) a
      norm_num at this
      rw [Nat.mul_comm a 2048, ← this]
    simp only [bind, Except.bind, decodeWords, hidx, hlt, if_true, hor]
    congr 1
    have hm : n % 2048 ^ (k + 1) = n % 2048 + 2048 * (n / 2048 % 2048 ^ k) := by
      rw [pow_succ, Nat.mul_comm (2048 ^ k) 2048, Nat.mod_mul]
    rw [hm, pow_succ]
    ring

theorem NewMnemonic_eq (wl : List String) (sha256 : Bytes → Bytes) (e : Bytes)
    (he : e.length = 32) :
    NewMnemonic wl sha256 e =
      (String.mk (joinWords ((mnemonicWords wl 24
        (setBytes e * 256 + ((sha256 e).headD 0).val)).map String.data)), none) := by
  unfold NewMnemonic
  simp only [he]
  have hv : validateEntropyBitSize (32 * 8) = none := by decide
  rw [hv, setBytes_addChecksum sha256 e he]

theorem fields_sentence (wl : List String) (hW : WordListOK wl) (count n : Nat) :
    fields (String.mk (joinWords ((mnemonicWords wl count n).map String.data))) =
      (mnemonicWords wl count n).map String.data := by
  unfold fields
  apply fieldsAux_joinWords
  intro w hw
  obtain ⟨v, hv, rfl⟩ := List.mem_map.mp hw
  exact hW.2.2 v (mnemonicWords_mem wl hW.1 count n v hv)

/-- The 24-word sentence of 32 bytes of entropy decodes back to the entropy:
the embedded checksum is the one recomputed from it. -/
theorem EntropyFromMnemonic_NewMnemonic (wl : List String) (sha256 : Bytes → Bytes) (e : Bytes)
    (hW : WordListOK wl) (he : e.length = 32) :
    (NewMnemonic wl sha256 e).2 = none ∧
    wordCount (NewMnemonic wl sha256 e).1 = 24 ∧
    EntropyFromMnemonic wl sha256 (NewMnemonic wl sha256 e).1 = (e, none) ∧
    IsMnemonicValid wl sha256 (NewMnemonic wl sha256 e).1 = true := by
  have hc : ((sha256 e).headD 0).val < 256 := ((sha256 e).headD 0).isLt
  have hE : setBytes e < 256 ^ 32 := by
    have := setBytes_lt e
    rwa [he] at this
  rw [NewMnemonic_eq wl sha256 e he]
  generalize hN : setBytes e * 256 + ((sha256 e).headD 0).val = N
  have hf := fields_sentence wl hW 24 N
  have hcount : wordCount (String.mk (joinWords ((mnemonicWords wl 24 N).map String.data))) =
      24 := by
    unfold wordCount
    rw [hf, List.length_map, mnemonicWords_length]
  have hsplit : splitMnemonicWords
      (String.mk (joinWords ((mnemonicWords wl 24 N).map String.data))) =
      some (mnemonicWords wl 24 N) := by
    unfold splitMnemonicWords
    rw [hf]
    have hm : ((mnemonicWords wl 24 N).map String.data).map String.mk = mnemonicWords wl 24 N := by
      rw [List.map_map]
      exact List.map_id _
    simp only [hm, mnemonicWords_length]
    rw [if_neg (by decide)]
  have hNlt : N < 2048 ^ 24 := by
    have h1 : (2048 : Nat) ^ 24 = 256 ^ 32 * 256 := by norm_num
    rw [h1, ← hN]
    nlinarith
  have hdec : decodeWords wl 0 (mnemonicWords wl 24 N) = Except.ok N := by
    rw [decodeWords_mnemonicWords wl hW.1 hW.2.1, Nat.mod_eq_of_lt hNlt]
    simp
  have hent : EntropyFromMnemonic wl sha256
      (String.mk (joinWords ((mnemonicWords wl 24 N).map String.data))) = (e, none) := by
    unfold EntropyFromMnemonic
    simp only [hsplit, hdec, mnemonicWords_length]
    have hmask : checksumMask 24 + 1 = 256 := by decide
    have hmask2 : checksumMask 24 = 255 := by decide
    have hdiv : N / 256 = setBytes e := by omega
    have hmod : N &&& 255 = ((sha256 e).headD 0).val := by
      have := Nat.and_pow_two_sub_one_eq_mod N 8
      norm_num at this
      rw [this]
      omega
    have hpad : padByteSlice (bigBytes (setBytes e)) (24 / 3 * 4) = e := by
      have := padByteSlice_bigBytes e
      rwa [he] at this
    simp only [hmask, hmask2, hdiv, hmod, hpad]
    simp
  refine ⟨rfl, hcount, hent, ?_⟩
  unfold IsMnemonicValid
  rw [hent]
  rfl

end Bip39

theorem demoLetters_inj : ∀ a b : Fin 16,
    demoLetters.getD a.val 'a' = demoLetters.getD b.val 'a' → a = b := by
  decide

theorem demoLetters_ok : ∀ a : Fin 16, isSpace (demoLetters.getD a.val 'a') = false := by
  decide

theorem demoWordAt_inj (i j : Nat) (hi : i < 2048) (hj : j < 2048)
    (h : demoWordAt i = demoWordAt j) : i = j := by
  unfold demoWordAt at h
  have hd := congrArg String.data h
  simp only [List.cons.injEq, and_true] at hd
  obtain ⟨h1, h2, h3⟩ := hd
  have e1 := demoLetters_inj ⟨i / 256, by omega⟩ ⟨j / 256, by omega⟩ h1
  have e2 := demoLetters_inj ⟨i / 16 % 16, by omega⟩ ⟨j / 16 % 16, by omega⟩ h2
  have e3 := demoLetters_inj ⟨i % 16, by omega⟩ ⟨j % 16, by omega⟩ h3
  simp only [Fin.mk.injEq] at e1 e2 e3
  omega

theorem demo_wordListOK : Bip39.WordListOK demoWordList := by
  refine ⟨by simp [demoWordList], ?_, ?_⟩
  · unfold demoWordList
    exact List.Nodup.map_on
      (fun x hx y hy h => demoWordAt_inj x y (List.mem_range.mp hx) (List.mem_range.mp hy) h)
      (List.nodup_range 2048)
  · intro w hw
    unfold demoWordList at hw
    obtain ⟨i, hi, rfl⟩ := List.mem_map.mp hw
    have hi2 : i < 2048 := List.mem_range.mp hi
    refine ⟨by simp [demoWordAt], ?_⟩
    intro c hc
    simp only [demoWordAt, List.mem_cons, List.mem_singleton, List.not_mem_nil, or_false] at hc
    rcases hc with rfl | rfl | rfl
    · exact demoLetters_ok ⟨i / 256, by omega⟩
    · exact demoLetters_ok ⟨i / 16 % 16, by omega⟩
    · exact demoLetters_ok ⟨i % 16, by omega⟩

theorem demo_bip39Contract : Bip39Contract demoLibs demoWordList demoSha256 := by
  refine ⟨?_, demo_wordListOK, rfl, rfl⟩
  intro bitSize rnd e h
  simp only [demoLibs, demoNewEntropy] at h
  by_cases hv : bitSize % 32 = 0 ∧ 128 ≤ bitSize ∧ bitSize ≤ 256
  · simp only [hv, and_self, if_true] at h
    by_cases hr : bitSize / 8 ≤ rnd.length
    · simp only [hr, if_true, Prod.mk.injEq, and_true] at h
      rw [← h, List.length_take]
      omega
    · simp only [hr, if_false, Prod.mk.injEq] at h
      exact absurd h.2 (by simp)
  · simp only [hv, if_false, Prod.mk.injEq] at h
    exact absurd h.2 (by simp)

theorem generate_never_err (L : Libs) (rnd : EntropySource) (args : List JsValue) (tag : String) :
    generateEd25519Keypair L rnd args ≠ Except.ok (GoValue.err tag) := by
  rw [generate_eq]
  cases ed25519Box L rnd args with
  | error p => intro h; cases h
  | ok box => intro h; cases h

/-- C3, the claim as stated fails: the two-word mnemonic "hello world" is not
rejected; the call returns the JSON of a box that carries it. -/
theorem malformed_mnemonic_not_rejected :
    wordCount "hello world" = 2 ∧ 2 ∉ validWordCounts ∧
    generateEd25519Keypair demoLibs [] (callArgs "hello world" "" 1 2 3 4) =
      Except.ok (GoValue.str (demoLibs.jsonMarshal
        (boxOf demoLibs "hello world" [1, 2, 3, 4] demoPrivateKey)).1) ∧
    generateEd25519Keypair demoLibs [] (callArgs "hello world" "" 1 2 3 4) ≠
      Except.ok (GoValue.err "InvalidMnemonic") := by
  refine ⟨by decide, by decide, rfl, generate_never_err _ _ _ _⟩

/-- C3 as amended: a non-empty mnemonic with a wrong number of words is used
as it is.  When the walk from `NewSeed(m, password)`, the key generation and
the PKIX marshalling succeed, the call returns the JSON of the box whose
mnemonic field is `m`, and it returns no error value. -/
theorem malformed_mnemonic_accepted (L : Libs) (rnd : EntropySource) (m pw : String)
    (n2 n3 n4 n5 : Int) (k : Bip32Key) (priv : Bytes)
    (hm : m ≠ "") (_hbad : wordCount m ∉ validWordCounts)
    (hw : hardenedWalk L (L.NewSeed m pw) (uint32 n2) (uint32 n3) (uint32 n4) (uint32 n5) = some k)
    (hk : L.NewKeyFromSeed k.Key = Except.ok priv)
    (hl : 12 ≤ (L.MarshalPKIXPublicKey (L.Public priv)).1.length) :
    generateEd25519Keypair L rnd (callArgs m pw n2 n3 n4 n5) =
      Except.ok (GoValue.str (L.jsonMarshal
        (boxOf L m [uint32 n2, uint32 n3, uint32 n4, uint32 n5] priv)).1) ∧
    (boxOf L m [uint32 n2, uint32 n3, uint32 n4, uint32 n5] priv).Mnemonic = m ∧
    ∀ tag, generateEd25519Keypair L rnd (callArgs m pw n2 n3 n4 n5) ≠
      Except.ok (GoValue.err tag) := by
  refine ⟨?_, rfl, fun tag => generate_never_err _ _ _ _⟩
  rw [generate_eq, ed25519Box_callArgs, usedMnemonic_of_ne L rnd m hm,
    deriveAndExport_ok L m pw _ _ _ _ k priv hw hk hl]

/-- Witness for the amended C3 on the executable instance. -/
theorem malformed_mnemonic_accepted_witness :
    generateEd25519Keypair demoLibs [] (callArgs "hello world" "" 1 2 3 4) =
      Except.ok (GoValue.str (demoLibs.jsonMarshal
        (boxOf demoLibs "hello world" [uint32 1, uint32 2, uint32 3, uint32 4]
          demoPrivateKey)).1) ∧
    (boxOf demoLibs "hello world" [uint32 1, uint32 2, uint32 3, uint32 4]
      demoPrivateKey).Mnemonic = "hello world" :=
  have h := malformed_mnemonic_accepted demoLibs [] "hello world" "" 1 2 3 4 demoNode
    demoPrivateKey (by decide) (by decide) (by decide) rfl (by decide)
  ⟨h.1, h.2.1⟩

/-- C6: with `crypto/ed25519`, `crypto/x509` and `base58` meeting their
contracts, every value the call returns is the JSON string of a box whose
`pub` field base58-decodes to the 32-byte Ed25519 public key of the key pair
generated from the final node of the walk (from the seed of the box's
mnemonic, along the box's path); the PKIX encoding of that key is the 12-byte
header followed by the key, 44 bytes in all, so `[12:]` removes the header and
nothing else. -/
theorem pub_format (L : Libs) (rnd : EntropySource) (args : List JsValue) (v : GoValue)
    (hE : Ed25519Contract L) (hX : X509Contract L) (h58 : Base58RoundTrip L)
    (h : generateEd25519Keypair L rnd args = Except.ok v) :
    ∃ box a1 k priv, v = GoValue.str (L.jsonMarshal box).1 ∧
      ed25519Box L rnd args = Except.ok box ∧
      args[1]? = some a1 ∧
      deriveLoop L (L.NewMasterKey (L.NewSeed box.Mnemonic (jsString a1))).1 box.Bip44Path =
        Except.ok (some k) ∧
      generateKeyPairFromSeed L k.Key = Except.ok (L.Public priv, priv) ∧
      L.base58Decode box.Pub = L.Public priv ∧
      (L.base58Decode box.Pub).length = 32 ∧
      (L.MarshalPKIXPublicKey (L.Public priv)).1 = pkixHeader ++ L.Public priv ∧
      pkixHeader.length = 12 ∧
      (L.MarshalPKIXPublicKey (L.Public priv)).1.length = 44 := by
  obtain ⟨box, hbox, hv⟩ := generate_ok_inv L rnd args v h
  obtain ⟨a0, a1, n2, n3, n4, n5, t2, t3, t4, t5, k, priv, -, h1, -, -, -, -, hw, hk, -, hb⟩ :=
    ed25519Box_inv L rnd args box hbox
  obtain ⟨-, -, -, hpub⟩ := hE k.Key priv hk
  have hpk : (L.MarshalPKIXPublicKey (L.Public priv)).1 = pkixHeader ++ L.Public priv := by
    rw [hX.1 _ hpub, pkixEd25519_eq _ hpub]
  have hdec : L.base58Decode box.Pub = L.Public priv := by
    rw [hb]
    show L.base58Decode (L.base58Encode ((L.MarshalPKIXPublicKey (L.Public priv)).1.drop 12)) = _
    rw [h58, hpk]
    rfl
  refine ⟨box, a1, k, priv, hv, hbox, h1, ?_, ?_, hdec, by rw [hdec, hpub], hpk, rfl, ?_⟩
  · rw [hb]
    exact deriveLoop_of_walk L _ _ _ _ _ k hw
  · simp [generateKeyPairFromSeed, hk, bind, Except.bind, pure, Except.pure]
  · rw [hpk, List.length_append, hpub]
    rfl

/-- C7: with `crypto/ed25519`, `crypto/x509` and `encoding/base64` meeting
their contracts, every value the call returns is the JSON string of a box
whose `prv` field base64-decodes to the PKCS#8 encoding of the private key:
the fixed 16-byte header followed by exactly the 32-byte seed, and that seed
is the key of the final node of the walk (`childKey.Key`). -/
theorem prv_format (L : Libs) (rnd : EntropySource) (args : List JsValue) (v : GoValue)
    (hE : Ed25519Contract L) (hX : X509Contract L) (h64 : Base64RoundTrip L)
    (h : generateEd25519Keypair L rnd args = Except.ok v) :
    ∃ box a1 k, v = GoValue.str (L.jsonMarshal box).1 ∧
      ed25519Box L rnd args = Except.ok box ∧
      args[1]? = some a1 ∧
      deriveLoop L (L.NewMasterKey (L.NewSeed box.Mnemonic (jsString a1))).1 box.Bip44Path =
        Except.ok (some k) ∧
      L.base64DecodeString box.Prv = (pkcs8Ed25519 k.Key, none) ∧
      pkcs8Ed25519 k.Key = pkcs8Header ++ k.Key ∧
      pkcs8Header.length = 16 ∧
      k.Key.length = 32 := by
  obtain ⟨box, hbox, hv⟩ := generate_ok_inv L rnd args v h
  obtain ⟨a0, a1, n2, n3, n4, n5, t2, t3, t4, t5, k, priv, -, h1, -, -, -, -, hw, hk, -, hb⟩ :=
    ed25519Box_inv L rnd args box hbox
  obtain ⟨hseed, hpriv, htake, -⟩ := hE k.Key priv hk
  refine ⟨box, a1, k, hv, hbox, h1, ?_, ?_, pkcs8Ed25519_eq _ hseed, rfl, hseed⟩
  · rw [hb]
    exact deriveLoop_of_walk L _ _ _ _ _ k hw
  · rw [hb]
    show L.base64DecodeString (L.base64EncodeToString (L.MarshalPKCS8PrivateKey priv).1) = _
    rw [h64, hX.2 _ hpriv, htake]

theorem demo_generate :
    generateEd25519Keypair demoLibs [] (callArgs "hello world" "" 1 2 3 4) =
      Except.ok (GoValue.str
        (demoLibs.jsonMarshal (boxOf demoLibs "hello world" [1, 2, 3, 4] demoPrivateKey)).1) :=
  rfl

/-- Witness for C6 on the executable instance. -/
theorem pub_format_witness :
    ∃ box a1 k priv,
      GoValue.str
        (demoLibs.jsonMarshal (boxOf demoLibs "hello world" [1, 2, 3, 4] demoPrivateKey)).1 =
        GoValue.str (demoLibs.jsonMarshal box).1 ∧
      ed25519Box demoLibs [] (callArgs "hello world" "" 1 2 3 4) = Except.ok box ∧
      (callArgs "hello world" "" 1 2 3 4)[1]? = some a1 ∧
      deriveLoop demoLibs
        (demoLibs.NewMasterKey (demoLibs.NewSeed box.Mnemonic (jsString a1))).1 box.Bip44Path =
        Except.ok (some k) ∧
      generateKeyPairFromSeed demoLibs k.Key = Except.ok (demoLibs.Public priv, priv) ∧
      demoLibs.base58Decode box.Pub = demoLibs.Public priv ∧
      (demoLibs.base58Decode box.Pub).length = 32 ∧
      (demoLibs.MarshalPKIXPublicKey (demoLibs.Public priv)).1 =
        pkixHeader ++ demoLibs.Public priv ∧
      pkixHeader.length = 12 ∧
      (demoLibs.MarshalPKIXPublicKey (demoLibs.Public priv)).1.length = 44 :=
  pub_format demoLibs [] (callArgs "hello world" "" 1 2 3 4) _
    demo_ed25519Contract demo_x509Contract demo_base58RoundTrip demo_generate

/-- Witness for C7 on the executable instance. -/
theorem prv_format_witness :
    ∃ box a1 k,
      GoValue.str
        (demoLibs.jsonMarshal (boxOf demoLibs "hello world" [1, 2, 3, 4] demoPrivateKey)).1 =
        GoValue.str (demoLibs.jsonMarshal box).1 ∧
      ed25519Box demoLibs [] (callArgs "hello world" "" 1 2 3 4) = Except.ok box ∧
      (callArgs "hello world" "" 1 2 3 4)[1]? = some a1 ∧
      deriveLoop demoLibs
        (demoLibs.NewMasterKey (demoLibs.NewSeed box.Mnemonic (jsString a1))).1 box.Bip44Path =
        Except.ok (some k) ∧
      demoLibs.base64DecodeString box.Prv = (pkcs8Ed25519 k.Key, none) ∧
      pkcs8Ed25519 k.Key = pkcs8Header ++ k.Key ∧
      pkcs8Header.length = 16 ∧
      k.Key.length = 32 :=
  prv_format demoLibs [] (callArgs "hello world" "" 1 2 3 4) _
    demo_ed25519Contract demo_x509Contract demo_base64RoundTrip demo_generate

/-- C8: with `go-bip39` as modelled (over a well-formed word list), a call
with the empty mnemonic in which `NewEntropy(256)` succeeds with entropy `e`
works with the sentence `NewMnemonic(e)`: `e` has 32 bytes (256 bits), the
sentence has `(256 + 256 / 32) / 11 = 24` words, `EntropyFromMnemonic` decodes
it back to `e` with the checksum matching (so `IsMnemonicValid` accepts it),
the seed is `NewSeed` of that sentence, and the value the call returns is the
JSON string of a box that carries the sentence as its mnemonic. -/
theorem generated_mnemonic (L : Libs) (rnd : EntropySource) (pw : String) (n2 n3 n4 n5 : Int)
    (e : Bytes) (wordList : List String) (sha256 : Bytes → Bytes)
    (hB : Bip39Contract L wordList sha256) (he : L.NewEntropy 256 rnd = (e, none)) :
    e.length = 32 ∧
    usedMnemonic L rnd "" = (L.NewMnemonic e).1 ∧
    (L.NewMnemonic e).2 = none ∧
    wordCount (L.NewMnemonic e).1 = 24 ∧
    bip39Words 256 = 24 ∧
    L.IsMnemonicValid (L.NewMnemonic e).1 = true ∧
    Bip39.EntropyFromMnemonic wordList sha256 (L.NewMnemonic e).1 = (e, none) ∧
    ed25519Box L rnd (callArgs "" pw n2 n3 n4 n5) =
      (deriveLoop L (L.NewMasterKey (L.NewSeed (L.NewMnemonic e).1 pw)).1
          [uint32 n2, uint32 n3, uint32 n4, uint32 n5] >>=
        exportBox L (L.NewMnemonic e).1 [uint32 n2, uint32 n3, uint32 n4, uint32 n5]) ∧
    (∀ box, ed25519Box L rnd (callArgs "" pw n2 n3 n4 n5) = Except.ok box →
      box.Mnemonic = (L.NewMnemonic e).1) ∧
    generateEd25519Keypair L rnd (callArgs "" pw n2 n3 n4 n5) =
      (deriveLoop L (L.NewMasterKey (L.NewSeed (L.NewMnemonic e).1 pw)).1
          [uint32 n2, uint32 n3, uint32 n4, uint32 n5] >>=
        exportBox L (L.NewMnemonic e).1 [uint32 n2, uint32 n3, uint32 n4, uint32 n5] >>=
        fun box => pure (GoValue.str (L.jsonMarshal box).1)) ∧
    (∀ v, generateEd25519Keypair L rnd (callArgs "" pw n2 n3 n4 n5) = Except.ok v →
      ∃ box, ed25519Box L rnd (callArgs "" pw n2 n3 n4 n5) = Except.ok box ∧
        box.Mnemonic = (L.NewMnemonic e).1 ∧ v = GoValue.str (L.jsonMarshal box).1) := by
  obtain ⟨hEnt, hW, hNew, hValid⟩ := hB
  have hlen : 8 * e.length = 256 := hEnt 256 rnd e he
  have hlen32 : e.length = 32 := by omega
  have hu : usedMnemonic L rnd "" = (L.NewMnemonic e).1 := by
    simp [usedMnemonic, he]
  obtain ⟨hnone, hcount, hdecode, hvalid⟩ :=
    Bip39.EntropyFromMnemonic_NewMnemonic wordList sha256 e hW hlen32
  have hbox : ed25519Box L rnd (callArgs "" pw n2 n3 n4 n5) =
      deriveAndExport L (L.NewMnemonic e).1 pw [uint32 n2, uint32 n3, uint32 n4, uint32 n5] := by
    rw [ed25519Box_callArgs, hu]
  have hmn : ∀ box, ed25519Box L rnd (callArgs "" pw n2 n3 n4 n5) = Except.ok box →
      box.Mnemonic = (L.NewMnemonic e).1 := by
    intro box h
    rw [hbox] at h
    obtain ⟨k, priv, -, -, -, hb⟩ := deriveAndExport_inv L _ _ _ _ _ _ box h
    rw [hb]; rfl
  refine ⟨hlen32, hu, ?_, ?_, by decide, ?_, ?_, ?_, hmn, ?_, ?_⟩
  · rw [hNew]; exact hnone
  · rw [hNew]; exact hcount
  · rw [hValid, hNew]; exact hvalid
  · rw [hNew]; exact hdecode
  · rw [hbox]; rfl
  · rw [generate_eq_bind, hbox]; rfl
  · intro v hv
    obtain ⟨box, hb, hvb⟩ := generate_ok_inv L rnd _ v hv
    exact ⟨box, hb, hmn box hb, hvb⟩

/-- Witness for C8: the executable instance with 32 bytes in the random source. -/
theorem generated_mnemonic_witness :
    demoEntropy.length = 32 ∧
    usedMnemonic demoLibs demoEntropy "" = (demoLibs.NewMnemonic demoEntropy).1 ∧
    wordCount (demoLibs.NewMnemonic demoEntropy).1 = 24 ∧
    demoLibs.IsMnemonicValid (demoLibs.NewMnemonic demoEntropy).1 = true ∧
    Bip39.EntropyFromMnemonic demoWordList demoSha256 (demoLibs.NewMnemonic demoEntropy).1 =
      (demoEntropy, none) ∧
    generateEd25519Keypair demoLibs demoEntropy (callArgs "" "" 1 2 3 4) =
      (deriveLoop demoLibs
          (demoLibs.NewMasterKey (demoLibs.NewSeed (demoLibs.NewMnemonic demoEntropy).1 "")).1
          [uint32 1, uint32 2, uint32 3, uint32 4] >>=
        exportBox demoLibs (demoLibs.NewMnemonic demoEntropy).1
          [uint32 1, uint32 2, uint32 3, uint32 4] >>=
        fun box => pure (GoValue.str (demoLibs.jsonMarshal box).1)) :=
  have h := generated_mnemonic demoLibs demoEntropy "" 1 2 3 4 demoEntropy demoWordList
    demoSha256 demo_bip39Contract (by decide)
  ⟨h.1, h.2.1, h.2.2.2.1, h.2.2.2.2.2.1, h.2.2.2.2.2.2.1, h.2.2.2.2.2.2.2.2.2.1⟩

/-- The result is computed from the values the packages return; the errors
they report next to them play no part. -/
theorem generate_dropErrors (L : Libs) (rnd : EntropySource) (args : List JsValue) :
    generateEd25519Keypair (dropErrors L) rnd args = generateEd25519Keypair L rnd args := by
  have hbox : ed25519Box (dropErrors L) rnd args = ed25519Box L rnd args := by
    rw [ed25519Box_eq_stages, ed25519Box_eq_stages]
    cases readArgs args with
    | error p => rfl
    | ok r =>
      show deriveAndExport (dropErrors L) (usedMnemonic L rnd r.1) r.2.1 r.2.2 =
        deriveAndExport L (usedMnemonic L rnd r.1) r.2.1 r.2.2
      unfold deriveAndExport
      rw [deriveLoop_congr L (dropErrors L) (fun _ _ => rfl)]
      rfl
  rw [generate_eq, generate_eq, hbox]
  rfl

/-- A nil master key or a nil child key ends the call in a nil dereference. -/
theorem nil_key_panics (L : Libs) (rnd : EntropySource) (m pw : String) (n2 n3 n4 n5 : Int)
    (h : hardenedWalk L (L.NewSeed (usedMnemonic L rnd m) pw)
      (uint32 n2) (uint32 n3) (uint32 n4) (uint32 n5) = none) :
    generateEd25519Keypair L rnd (callArgs m pw n2 n3 n4 n5) =
      Except.error Panic.nilDereference := by
  rw [generate_eq, ed25519Box_callArgs, deriveAndExport_four, h]

/-- A PKIX result shorter than 12 bytes ends the call in a slice-bounds panic. -/
theorem short_pkix_panics (L : Libs) (rnd : EntropySource) (m pw : String) (n2 n3 n4 n5 : Int)
    (k : Bip32Key) (priv : Bytes)
    (hw : hardenedWalk L (L.NewSeed (usedMnemonic L rnd m) pw)
      (uint32 n2) (uint32 n3) (uint32 n4) (uint32 n5) = some k)
    (hk : L.NewKeyFromSeed k.Key = Except.ok priv)
    (hl : (L.MarshalPKIXPublicKey (L.Public priv)).1.length < 12) :
    generateEd25519Keypair L rnd (callArgs m pw n2 n3 n4 n5) =
      Except.error Panic.sliceBounds := by
  rw [generate_eq, ed25519Box_callArgs, deriveAndExport_four, hw]
  simp only [exportBox_some, hk]
  rw [if_neg (by omega)]

/-- A call with fewer than six arguments panics on the missing index. -/
theorem missing_path_panics (L : Libs) (rnd : EntropySource) (a0 a1 : JsValue) :
    generateEd25519Keypair L rnd [a0, a1] = Except.error Panic.indexOutOfRange := rfl

/-- A call whose first path argument is `undefined` panics in `Int()`. -/
theorem undefined_path_panics (L : Libs) (rnd : EntropySource) (a0 a1 : JsValue)
    (rest : List JsValue) :
    generateEd25519Keypair L rnd (a0 :: a1 :: JsValue.undefined :: rest) =
      Except.error Panic.notANumber := by
  have hr : readArgs (a0 :: a1 :: JsValue.undefined :: rest) = Except.error Panic.notANumber := by
    simp [readArgs, index, jsInt, bind, Except.bind, pure, Except.pure, throw, throwThe,
      MonadExceptOf.throw]
  rw [generate_eq, ed25519Box_eq_stages, hr]
  rfl

/-- C9, the claim as stated fails: with a child derivation that fails (nil
key and an error) the call does not return a string, it panics on the nil
key. -/
theorem failed_child_derivation_panics :
    (failingChildLibs.NewMasterKey (failingChildLibs.NewSeed "hello world" "")).1.isSome = true ∧
    failingChildLibs.NewChildKey = (fun _ _ => (none, some "Invalid private key")) ∧
    generateEd25519Keypair failingChildLibs [] (callArgs "hello world" "" 1 2 3 4) =
      Except.error Panic.nilDereference := by
  refine ⟨by decide, rfl, rfl⟩

/-- C9 as amended: no error is returned to the caller and the reported errors
are ignored (the result is the one obtained with every error replaced by
nil).  When the values of the key steps are usable, that is the walk gives a
node, the Ed25519 step a key pair and the PKIX marshalling at least 12 bytes,
the call returns a string, whatever errors entropy generation, mnemonic
encoding, private-key marshalling, JSON serialization or any other stage
reported and whatever values they returned. -/
theorem errors_discarded (L : Libs) (rnd : EntropySource) (m pw : String) (n2 n3 n4 n5 : Int)
    (k : Bip32Key) (priv : Bytes)
    (hw : hardenedWalk L (L.NewSeed (usedMnemonic L rnd m) pw)
      (uint32 n2) (uint32 n3) (uint32 n4) (uint32 n5) = some k)
    (hk : L.NewKeyFromSeed k.Key = Except.ok priv)
    (hl : 12 ≤ (L.MarshalPKIXPublicKey (L.Public priv)).1.length) :
    generateEd25519Keypair L rnd (callArgs m pw n2 n3 n4 n5) =
      Except.ok (GoValue.str (L.jsonMarshal
        (boxOf L (usedMnemonic L rnd m) [uint32 n2, uint32 n3, uint32 n4, uint32 n5] priv)).1) ∧
    generateEd25519Keypair (dropErrors L) rnd (callArgs m pw n2 n3 n4 n5) =
      generateEd25519Keypair L rnd (callArgs m pw n2 n3 n4 n5) ∧
    ∀ tag, generateEd25519Keypair L rnd (callArgs m pw n2 n3 n4 n5) ≠
      Except.ok (GoValue.err tag) := by
  refine ⟨?_, generate_dropErrors _ _ _, fun tag => generate_never_err _ _ _ _⟩
  rw [generate_eq, ed25519Box_callArgs, deriveAndExport_ok L _ pw _ _ _ _ k priv hw hk hl]

/-- Witness for the amended C9: the random source is exhausted, so entropy
generation and mnemonic encoding both fail; the call goes on with the empty
mnemonic and returns a string. -/
theorem errors_discarded_witness :
    (demoLibs.NewEntropy 256 []).2 = some "unexpected EOF" ∧
    (demoLibs.NewMnemonic (demoLibs.NewEntropy 256 []).1) =
      ("", some "Entropy length must be [128, 256] and a multiple of 32") ∧
    generateEd25519Keypair demoLibs [] (callArgs "" "" 1 2 3 4) =
      Except.ok (GoValue.str (demoLibs.jsonMarshal
        (boxOf demoLibs (usedMnemonic demoLibs [] "") [uint32 1, uint32 2, uint32 3, uint32 4]
          (demoNodeEmpty.Key ++ demoNodeEmpty.Key.reverse))).1) :=
  ⟨by decide, by decide,
    (errors_discarded demoLibs [] "" "" 1 2 3 4 demoNodeEmpty
      (demoNodeEmpty.Key ++ demoNodeEmpty.Key.reverse) (by decide) rfl (by decide)).1⟩

end Addons
